import Mathlib

/-!
Verification of the fe2o3-amqp AMQP 1.0 implementation core against its
specification.  The Rust sources are shallowly embedded: pure functions become
Lean functions, stateful methods become explicit state passing, machine
integers become Nat or Int with explicit range side conditions, and fallible
operations return Option or Except.
-/

set_option maxHeartbeats 1000000

namespace Amqp

/-! ## serde_amqp error taxonomy

Modelled from the spec: the errors signaled by the type codec
(InvalidFormatCode, UnexpectedEof, SizeMismatch, Utf8, DescriptorMismatch,
IsDescribedType).  The full Rust `Error` enum of the `serde_amqp` crate is not
among the provided sources; only the variants the spec names are modelled. -/
inductive SerdeError where
  | invalidFormatCode
  | unexpectedEof
  | sizeMismatch
  | utf8
  | descriptorMismatch
  | isDescribedType
deriving DecidableEq, Repr

/-! ## serde_amqp/src/format.rs -/

/-- The format-code categories, from `enum Category` in format.rs. -/
inductive FixedWidth where
  | zero | one | two | four | eight | sixteen
deriving DecidableEq, Repr

/-- Encoded (variable / compound / array) width selector, from
    `enum EncodedWidth` in format.rs. -/
inductive EncodedWidth where
  | zero | one | four
deriving DecidableEq, Repr

/-- `enum Category` from format.rs. -/
inductive Category where
  | fixed (w : FixedWidth)
  | encoded (w : EncodedWidth)
deriving DecidableEq, Repr

/-- The AMQP encoding format codes.  The variant list is reconstructed from the
exhaustive (wildcard-free) `match` in `TryFrom<EncodingCodes> for Category` in
serde_amqp/src/format.rs; the `format_code.rs` file defining the enum is not
among the provided sources. -/
inductive EncodingCodes where
  | describedType
  | null
  | boolean | booleanTrue | booleanFalse
  | ubyte
  | ushort
  | uint | smallUInt | uint0
  | ulong | smallULong | ulong0
  | byte
  | short
  | int | smallInt
  | long | smallLong
  | float
  | double
  | decimal32 | decimal64 | decimal128
  | char
  | timestamp
  | uuid
  | vbin8 | vbin32
  | str8 | str32
  | sym8 | sym32
  | list0 | list8 | list32
  | map8 | map32
  | array8 | array32
deriving DecidableEq, Repr

/-- `TryFrom<EncodingCodes> for Category` from serde_amqp/src/format.rs. -/
def Category.tryFromEncodingCodes : EncodingCodes → Except SerdeError Category
  | .describedType => .error .isDescribedType
  | .null => .ok (.fixed .zero)
  | .boolean => .ok (.fixed .one)
  | .booleanTrue => .ok (.fixed .zero)
  | .booleanFalse => .ok (.fixed .zero)
  | .ubyte => .ok (.fixed .one)
  | .ushort => .ok (.fixed .two)
  | .uint => .ok (.fixed .four)
  | .smallUInt => .ok (.fixed .one)
  | .uint0 => .ok (.fixed .zero)
  | .ulong => .ok (.fixed .eight)
  | .smallULong => .ok (.fixed .one)
  | .ulong0 => .ok (.fixed .zero)
  | .byte => .ok (.fixed .one)
  | .short => .ok (.fixed .two)
  | .int => .ok (.fixed .four)
  | .smallInt => .ok (.fixed .one)
  | .long => .ok (.fixed .eight)
  | .smallLong => .ok (.fixed .one)
  | .float => .ok (.fixed .four)
  | .double => .ok (.fixed .eight)
  | .decimal32 => .ok (.fixed .four)
  | .decimal64 => .ok (.fixed .eight)
  | .decimal128 => .ok (.fixed .sixteen)
  | .char => .ok (.fixed .four)
  | .timestamp => .ok (.fixed .eight)
  | .uuid => .ok (.fixed .sixteen)
  | .vbin8 => .ok (.encoded .one)
  | .vbin32 => .ok (.encoded .four)
  | .str8 => .ok (.encoded .one)
  | .str32 => .ok (.encoded .four)
  | .sym8 => .ok (.encoded .one)
  | .sym32 => .ok (.encoded .four)
  | .list0 => .ok (.encoded .zero)
  | .list8 => .ok (.encoded .one)
  | .list32 => .ok (.encoded .four)
  | .map8 => .ok (.encoded .one)
  | .map32 => .ok (.encoded .four)
  | .array8 => .ok (.encoded .one)
  | .array32 => .ok (.encoded .four)

/-! ## serde_amqp/src/read/sliceread.rs -/

/-- The std::io error kinds that sliceread.rs signals. -/
inductive IoErrorKind where
  | unexpectedEof
deriving DecidableEq, Repr

/-- `struct SliceReader` from sliceread.rs: a reader holding the remaining
byte slice. -/
structure SliceReader where
  slice : List Nat
deriving DecidableEq, Repr

/-- `SliceReader::get_byte_slice` from sliceread.rs.  Returns the read slice
and the updated reader; on insufficient input it returns the error and leaves
the reader untouched. -/
def SliceReader.getByteSlice (r : SliceReader) (n : Nat) :
    Except IoErrorKind (List Nat) × SliceReader :=
  if r.slice.length < n then
    (.error .unexpectedEof, r)
  else
    -- split_at n
    (.ok (r.slice.take n), ⟨r.slice.drop n⟩)

/-- `SliceReader::read_exact` from sliceread.rs: checks the remaining length
and then delegates to `get_byte_slice`, copying the bytes into the caller's
buffer (modelled as returning the bytes read).  `n` is the buffer length. -/
def SliceReader.readExact (r : SliceReader) (n : Nat) :
    Except IoErrorKind (List Nat) × SliceReader :=
  if r.slice.length < n then
    (.error .unexpectedEof, r)
  else
    match r.getByteSlice n with
    | (.ok bs, r₂) => (.ok bs, r₂)
    | (.error e, r₂) => (.error e, r₂)

/-! ## fe2o3-amqp-types/src/messaging/message.rs -/

/-- `enum Field` of the `Message` deserializer in message.rs: one tag per
message section, with all three body descriptors collapsing onto
`bodySection`. -/
inductive MessageField where
  | header
  | deliveryAnnotations
  | messageAnnotations
  | properties
  | applicationProperties
  | bodySection
  | footer
deriving DecidableEq, Repr

/-- `FieldVisitor::visit_u64` of the `Message` deserializer in message.rs:
maps a descriptor code to the message section it announces, rejecting unknown
codes.  The error payload of `de::Error::custom` is collapsed to `Unit`. -/
def messageFieldVisitU64 : Nat → Except Unit MessageField
  | 0x70 => .ok .header
  | 0x71 => .ok .deliveryAnnotations
  | 0x72 => .ok .messageAnnotations
  | 0x73 => .ok .properties
  | 0x74 => .ok .applicationProperties
  | 0x75 => .ok .bodySection
  | 0x76 => .ok .bodySection
  | 0x77 => .ok .bodySection
  | 0x78 => .ok .footer
  | _ => .error ()

/-- `enum Field` of the `BodySection` deserializer in message.rs (module
`body_section`). -/
inductive BodySectionField where
  | data
  | sequence
  | value
deriving DecidableEq, Repr

/-- `FieldVisitor::visit_u64` of the `BodySection` deserializer in
message.rs: chooses the body variant from the descriptor code. -/
def bodySectionFieldVisitU64 : Nat → Except Unit BodySectionField
  | 0x75 => .ok .data
  | 0x76 => .ok .sequence
  | 0x77 => .ok .value
  | _ => .error ()

/-- `struct Message` from message.rs.  The seven section payload types are
type parameters: the Rust payload types (Header, DeliveryAnnotations, ...)
live in source files that do not affect `sections` or `last_section_code`,
which only inspect presence. -/
structure Message (H DA MA P AP B F : Type) where
  header : Option H
  delivery_annotations : Option DA
  message_annotations : Option MA
  properties : Option P
  application_properties : Option AP
  body_section : B
  footer : Option F

/-- `Message::sections` from message.rs: the body section always counts, and
each present optional section adds one. -/
def Message.sections {H DA MA P AP B F : Type} (m : Message H DA MA P AP B F) : Nat :=
  (((((1
    + (if m.header.isSome then 1 else 0))
    + (if m.delivery_annotations.isSome then 1 else 0))
    + (if m.message_annotations.isSome then 1 else 0))
    + (if m.properties.isSome then 1 else 0))
    + (if m.application_properties.isSome then 1 else 0))
    + (if m.footer.isSome then 1 else 0)

/-- `Message::last_section_code` from message.rs. -/
def Message.lastSectionCode {H DA MA P AP B F : Type} (m : Message H DA MA P AP B F) : Nat :=
  if m.footer.isSome then 0x78 else 0x77

/-! ## Settle modes and the link acceptor (fe2o3-amqp/src/acceptor) -/

/-- The AMQP sender settle modes.  Modelled from the spec: unsettled, settled
and mixed (section 4.5 of the specification); the Rust enum lives in
fe2o3-amqp-types, which is not among the provided sources. -/
inductive SenderSettleMode where
  | unsettled
  | settled
  | mixed
deriving DecidableEq, Repr

/-- The AMQP receiver settle modes.  Modelled from the spec: first and second
(section 4.5 of the specification). -/
inductive ReceiverSettleMode where
  | first
  | second
deriving DecidableEq, Repr

/-- The set of sender settle modes an acceptor supports.  Modelled from the
spec: the acceptor policy carries a supported set that the desired mode is
checked against; the concrete Rust type is not among the provided sources, so
the set is modelled as a list with membership as the `supports` query. -/
def SupportedSenderSettleModes := List SenderSettleMode

/-- Membership query on the supported sender settle modes. -/
def SupportedSenderSettleModes.supports (s : SupportedSenderSettleModes)
    (m : SenderSettleMode) : Bool :=
  s.contains m

/-- The set of receiver settle modes an acceptor supports.  Modelled from the
spec, as for the sender side. -/
def SupportedReceiverSettleModes := List ReceiverSettleMode

/-- Membership query on the supported receiver settle modes. -/
def SupportedReceiverSettleModes.supports (s : SupportedReceiverSettleModes)
    (m : ReceiverSettleMode) : Bool :=
  s.contains m

/-- The acceptor policy fields that decide the responded settle modes, from
`SharedLinkAcceptorFields` in fe2o3-amqp/src/acceptor/link.rs (the other
fields of that struct do not participate in mode selection). -/
structure SharedLinkAcceptorFields where
  supported_snd_settle_modes : SupportedSenderSettleModes
  fallback_snd_settle_mode : SenderSettleMode
  supported_rcv_settle_modes : SupportedReceiverSettleModes
  fallback_rcv_settle_mode : ReceiverSettleMode

/-- The sender settle mode selection of
`LocalSenderLinkAcceptor::accept_incoming_attach` in
fe2o3-amqp/src/acceptor/local_sender_link.rs (lines 76-83): echo the remote
desired mode when supported, otherwise use the policy fallback. -/
def selectSndSettleMode (shared : SharedLinkAcceptorFields)
    (remoteDesired : SenderSettleMode) : SenderSettleMode :=
  if shared.supported_snd_settle_modes.supports remoteDesired then
    remoteDesired
  else
    shared.fallback_snd_settle_mode

/-- The receiver settle mode selection of
`LocalSenderLinkAcceptor::accept_incoming_attach` in
fe2o3-amqp/src/acceptor/local_sender_link.rs (lines 84-91). -/
def selectRcvSettleMode (shared : SharedLinkAcceptorFields)
    (remoteDesired : ReceiverSettleMode) : ReceiverSettleMode :=
  if shared.supported_rcv_settle_modes.supports remoteDesired then
    remoteDesired
  else
    shared.fallback_rcv_settle_mode

/-! ## Error conditions (fe2o3-amqp-types/src/definitions)

The error-condition enums live in fe2o3-amqp-types, which is not among the
provided sources; the variants are modelled from the spec error taxonomy
(section 7) together with the variants referenced by
fe2o3-amqp/src/link/error.rs and transaction/coordinator.rs. -/

/-- AMQP-level error conditions (`AmqpError`). -/
inductive AmqpError where
  | internalError
  | notFound
  | decodeError
  | frameSizeTooSmall
  | notImplemented
  | illegalState
  | invalidField
  | notAllowed
  | resourceLimitExceeded
deriving DecidableEq, Repr

/-- Session-level error conditions (`SessionError`). -/
inductive SessionError where
  | handleInUse
  | errantLink
  | windowViolation
  | unattachedHandle
deriving DecidableEq, Repr

/-- Connection-level error conditions (`ConnectionError`). -/
inductive ConnectionError where
  | connectionForced
  | framingError
  | redirect
deriving DecidableEq, Repr

/-- `ErrorCondition`: the tagged union of the condition families. -/
inductive ErrorCondition where
  | amqpError (e : AmqpError)
  | sessionError (e : SessionError)
  | connectionError (e : ConnectionError)
deriving DecidableEq, Repr

/-- `definitions::Error` (2.8.14 in fe2o3-core/src/definitions/mod.rs): a
condition, an optional description and an optional info map.  The info map is
`None` at every embedded construction site, so its payload is modelled as
`Unit`. -/
structure DefError where
  condition : ErrorCondition
  description : Option String
  info : Option Unit
deriving DecidableEq, Repr

/-- `definitions::Error::new`. -/
def DefError.new (condition : ErrorCondition) (description : Option String)
    (info : Option Unit) : DefError :=
  ⟨condition, description, info⟩

/-! ## fe2o3-amqp/src/link/error.rs -/

/-- `enum ReceiverAttachErrorKind` from link/error.rs. -/
inductive ReceiverAttachErrorKind where
  | sessionIsDropped
  | duplicatedLinkName
  | illegalState
  | nonAttachFrameReceived
  | expectImmediateDetach
  | incomingSourceIsNone
  | incomingTargetIsNone
  | coordinatorIsNotImplemented
  | initialDeliveryCountIsNone
  | addressIsSomeWhenDynamicIsTrue
  | dynamicNodePropertiesIsSomeWhenDynamicIsFalse
deriving DecidableEq, Repr

/-- The Rust `Debug` rendering of `ReceiverAttachErrorKind`, used by the
`format!` call inside the conversion to `definitions::Error`. -/
def ReceiverAttachErrorKind.debugName : ReceiverAttachErrorKind → String
  | .sessionIsDropped => "SessionIsDropped"
  | .duplicatedLinkName => "DuplicatedLinkName"
  | .illegalState => "IllegalState"
  | .nonAttachFrameReceived => "NonAttachFrameReceived"
  | .expectImmediateDetach => "ExpectImmediateDetach"
  | .incomingSourceIsNone => "IncomingSourceIsNone"
  | .incomingTargetIsNone => "IncomingTargetIsNone"
  | .coordinatorIsNotImplemented => "CoordinatorIsNotImplemented"
  | .initialDeliveryCountIsNone => "InitialDeliveryCountIsNone"
  | .addressIsSomeWhenDynamicIsTrue => "AddressIsSomeWhenDynamicIsTrue"
  | .dynamicNodePropertiesIsSomeWhenDynamicIsFalse =>
      "DynamicNodePropertiesIsSomeWhenDynamicIsFalse"

/-- `TryFrom<&ReceiverAttachErrorKind> for definitions::Error` from
link/error.rs: maps each kind to a protocol error, handing back the kinds
that do not convert. -/
def ReceiverAttachErrorKind.tryIntoError (value : ReceiverAttachErrorKind) :
    Except ReceiverAttachErrorKind DefError :=
  match value with
  | .sessionIsDropped => .ok (DefError.new (.amqpError .illegalState) (some value.debugName) none)
  | .duplicatedLinkName => .ok (DefError.new (.sessionError .handleInUse) (some value.debugName) none)
  | .illegalState => .ok (DefError.new (.amqpError .illegalState) (some value.debugName) none)
  | .nonAttachFrameReceived => .ok (DefError.new (.amqpError .notAllowed) (some value.debugName) none)
  | .expectImmediateDetach => .ok (DefError.new (.amqpError .notAllowed) (some value.debugName) none)
  | .incomingSourceIsNone => .error value
  | .incomingTargetIsNone => .error value
  | .coordinatorIsNotImplemented => .ok (DefError.new (.amqpError .notImplemented) (some value.debugName) none)
  | .initialDeliveryCountIsNone => .ok (DefError.new (.amqpError .invalidField) (some value.debugName) none)
  | .addressIsSomeWhenDynamicIsTrue => .ok (DefError.new (.amqpError .invalidField) (some value.debugName) none)
  | .dynamicNodePropertiesIsSomeWhenDynamicIsFalse => .ok (DefError.new (.amqpError .invalidField) (some value.debugName) none)

/-- `enum SenderAttachErrorKind` from link/error.rs. -/
inductive SenderAttachErrorKind where
  | sessionIsDropped
  | duplicatedLinkName
  | illegalState
  | nonAttachFrameReceived
  | expectImmediateDetach
  | incomingSourceIsNone
  | incomingTargetIsNone
  | coordinatorIsNotImplemented
  | addressIsNoneWhenDynamicIsTrue
  | dynamicNodePropertiesIsSomeWhenDynamicIsFalse
  | desireTxnCapabilitiesNotSupported
deriving DecidableEq, Repr

/-- The Rust `Debug` rendering of `SenderAttachErrorKind`. -/
def SenderAttachErrorKind.debugName : SenderAttachErrorKind → String
  | .sessionIsDropped => "SessionIsDropped"
  | .duplicatedLinkName => "DuplicatedLinkName"
  | .illegalState => "IllegalState"
  | .nonAttachFrameReceived => "NonAttachFrameReceived"
  | .expectImmediateDetach => "ExpectImmediateDetach"
  | .incomingSourceIsNone => "IncomingSourceIsNone"
  | .incomingTargetIsNone => "IncomingTargetIsNone"
  | .coordinatorIsNotImplemented => "CoordinatorIsNotImplemented"
  | .addressIsNoneWhenDynamicIsTrue => "AddressIsNoneWhenDynamicIsTrue"
  | .dynamicNodePropertiesIsSomeWhenDynamicIsFalse =>
      "DynamicNodePropertiesIsSomeWhenDynamicIsFalse"
  | .desireTxnCapabilitiesNotSupported => "DesireTxnCapabilitiesNotSupported"

/-- `TryFrom<&SenderAttachErrorKind> for definitions::Error` from
link/error.rs. -/
def SenderAttachErrorKind.tryIntoError (value : SenderAttachErrorKind) :
    Except SenderAttachErrorKind DefError :=
  match value with
  | .sessionIsDropped => .ok (DefError.new (.amqpError .illegalState) (some value.debugName) none)
  | .duplicatedLinkName => .ok (DefError.new (.sessionError .handleInUse) (some value.debugName) none)
  | .illegalState => .ok (DefError.new (.amqpError .illegalState) (some value.debugName) none)
  | .nonAttachFrameReceived => .ok (DefError.new (.amqpError .notAllowed) (some value.debugName) none)
  | .expectImmediateDetach => .ok (DefError.new (.amqpError .notAllowed) (some value.debugName) none)
  | .coordinatorIsNotImplemented => .ok (DefError.new (.amqpError .notImplemented) (some value.debugName) none)
  | .dynamicNodePropertiesIsSomeWhenDynamicIsFalse => .ok (DefError.new (.amqpError .invalidField) (some value.debugName) none)
  | .addressIsNoneWhenDynamicIsTrue => .ok (DefError.new (.amqpError .invalidField) (some value.debugName) none)
  | .incomingSourceIsNone => .error value
  | .incomingTargetIsNone => .error value
  | .desireTxnCapabilitiesNotSupported => .error value

/-! ## fe2o3-amqp/src/transaction/coordinator.rs -/

/-- A transaction id (`TransactionId`, a binary blob). -/
def TransactionId := List Nat
deriving DecidableEq

/-- `Declare` from the transaction extension.  Only the `global_id` field is
inspected by the embedded coordinator code; the Rust struct lives in
fe2o3-amqp-types, which is not among the provided sources. -/
structure Declare where
  global_id : Option TransactionId

/-- The link error type as used by coordinator.rs (`link::Error` with
`Local` and `Detached` variants).  The `Detached` payload is not inspected by
the coordinator paths embedded here. -/
inductive CoordinatorLinkError where
  | local (e : DefError)
  | detached
deriving DecidableEq, Repr

/-- The coordinator event-loop verdict (`util::Running`). -/
inductive Running where
  | cont
  | stop
deriving DecidableEq, Repr

/-- `TxnCoordinator::on_declare` from transaction/coordinator.rs, as a
function of the set of pending transaction ids.  A `Declare` whose
`global_id` is set is answered with a local NotImplemented error and the
pending set is left untouched; the `None` branch of the source is an
unimplemented stub (`todo!`), modelled as `none`. -/
def TxnCoordinator.onDeclare (pending : List TransactionId) (declare : Declare) :
    Option (Except CoordinatorLinkError Running × List TransactionId) :=
  match declare.global_id with
  | some _ =>
      some (.error (.local (DefError.new (.amqpError .notImplemented)
        (some "Global transaction ID is not implemented") none)), pending)
  | none => none

/-! ## fe2o3-amqp/src/transaction/owned.rs -/

/-- Failure modes of discharging an owned transaction: the controller
discharge call or the controller close call failed.  The Rust
`OwnedDischargeError` lives outside the provided sources; only the two
failure points of the embedded methods are distinguished. -/
inductive OwnedDischargeError where
  | dischargeFailed
  | closeFailed
deriving DecidableEq, Repr

/-- `struct OwnedTransaction` from transaction/owned.rs: the declared
transaction id together with the `is_discharged` flag.  The controller handle
is modelled by the oracles passed to each operation. -/
structure OwnedTransaction where
  txn_id : TransactionId
  is_discharged : Bool

/-- `TransactionDischarge::discharge for OwnedTransaction` from owned.rs.
`ctrlOk` is the outcome of the controller discharge call.  Returns the
result, the updated transaction, and how many discharge calls were issued to
the controller by this invocation. -/
def OwnedTransaction.discharge (ctrlOk : Bool) (txn : OwnedTransaction)
    (_fail : Bool) : Except OwnedDischargeError Unit × OwnedTransaction × Nat :=
  if !txn.is_discharged then
    if ctrlOk then
      (.ok (), { txn with is_discharged := true }, 1)
    else
      (.error .dischargeFailed, txn, 1)
  else
    (.ok (), txn, 0)

/-- `TransactionDischarge::rollback for OwnedTransaction` from owned.rs:
discharge with `fail = true`, then close the controller.  `closeOk` is the
outcome of the controller close call. -/
def OwnedTransaction.rollback (ctrlOk closeOk : Bool) (txn : OwnedTransaction) :
    Except OwnedDischargeError Unit × OwnedTransaction × Nat :=
  match txn.discharge ctrlOk true with
  | (.ok _, t, n) =>
      if closeOk then (.ok (), t, n) else (.error .closeFailed, t, n)
  | (.error e, t, n) => (.error e, t, n)

/-- `TransactionDischarge::commit for OwnedTransaction` from owned.rs:
discharge with `fail = false`, then close the controller. -/
def OwnedTransaction.commit (ctrlOk closeOk : Bool) (txn : OwnedTransaction) :
    Except OwnedDischargeError Unit × OwnedTransaction × Nat :=
  match txn.discharge ctrlOk false with
  | (.ok _, t, n) =>
      if closeOk then (.ok (), t, n) else (.error .closeFailed, t, n)
  | (.error e, t, n) => (.error e, t, n)

/-! ## Byte-level helpers for the type codec

Modelled from the spec: the AMQP type codec (section 4.1) writes fixed-width
integers big-endian; the `serde_amqp` encoder and decoder themselves are not
among the provided sources and are modelled from the specification text. -/

/-- The `w`-byte big-endian encoding of `n` (the low `8 * w` bits). -/
def beBytes : Nat → Nat → List Nat
  | 0, _ => []
  | w + 1, n => beBytes w (n / 256) ++ [n % 256]

/-- Read a big-endian byte sequence back as a number. -/
def fromBE (bs : List Nat) : Nat :=
  bs.foldl (fun acc b => acc * 256 + b) 0

/-- Take exactly `n` bytes off the front of the input, failing on
insufficient input. -/
def readN (n : Nat) (bs : List Nat) : Option (List Nat × List Nat) :=
  if bs.length < n then none else some (bs.take n, bs.drop n)

/-- Read a `w`-byte big-endian number off the front of the input. -/
def readBE (w : Nat) (bs : List Nat) : Option (Nat × List Nat) :=
  (readN w bs).map (fun p => (fromBE p.1, p.2))

theorem beBytes_length (w n : Nat) : (beBytes w n).length = w := by
  induction w generalizing n with
  | zero => rfl
  | succ w ih => simp [beBytes, ih]

theorem fromBE_append_singleton (bs : List Nat) (b : Nat) :
    fromBE (bs ++ [b]) = fromBE bs * 256 + b := by
  simp [fromBE, List.foldl_append]

theorem fromBE_beBytes (w n : Nat) (h : n < 256 ^ w) :
    fromBE (beBytes w n) = n := by
  induction w generalizing n with
  | zero =>
      simp [pow_zero] at h
      simp [beBytes, fromBE, h]
  | succ w ih =>
      have hpow : (256 : Nat) ^ (w + 1) = 256 * 256 ^ w := by
        rw [pow_succ]; ring
      have hdiv : n / 256 < 256 ^ w := by
        apply Nat.div_lt_of_lt_mul
        omega
      rw [beBytes, fromBE_append_singleton, ih (n / 256) hdiv]
      omega

theorem readN_append (n : Nat) (xs rest : List Nat) (h : xs.length = n) :
    readN n (xs ++ rest) = some (xs, rest) := by
  subst h
  have hlen : (xs ++ rest).length = xs.length + rest.length := List.length_append xs rest
  have htake : (xs ++ rest).take xs.length = xs := by
    simpa using List.take_left xs rest
  have hdrop : (xs ++ rest).drop xs.length = rest := by
    simpa using List.drop_left xs rest
  simp [readN, hlen, htake, hdrop]

theorem readBE_append (w n : Nat) (rest : List Nat) (h : n < 256 ^ w) :
    readBE w (beBytes w n ++ rest) = some (n, rest) := by
  rw [readBE, readN_append w (beBytes w n) rest (beBytes_length w n)]
  simp [fromBE_beBytes w n h]

/-- Two's-complement representative of `i` modulo `m`. -/
def toTwos (m : Nat) (i : Int) : Nat :=
  (i % (m : Int)).toNat

/-- Interpret `n` (already reduced modulo `m`) as a two's-complement
value. -/
def fromTwos (m : Nat) (n : Nat) : Int :=
  if 2 * n < m then (n : Int) else (n : Int) - (m : Int)

theorem toTwos_lt (m : Nat) (i : Int) (hm : 0 < m) : toTwos m i < m := by
  have hmz : (m : Int) ≠ 0 := by exact_mod_cast hm.ne.symm
  have h1 : 0 ≤ i % (m : Int) := Int.emod_nonneg i hmz
  have h2 : i % (m : Int) < (m : Int) := Int.emod_lt_of_pos i (by exact_mod_cast hm)
  rw [toTwos]
  omega

theorem fromTwos_toTwos (m : Nat) (i : Int) (h1 : -(m : Int) ≤ 2 * i)
    (h2 : 2 * i < m) : fromTwos m (toTwos m i) = i := by
  have hm : 0 < m := by
    rcases Nat.eq_zero_or_pos m with h | h
    · subst h; simp at h1 h2; omega
    · exact h
  have hmz : (m : Int) ≠ 0 := by exact_mod_cast hm.ne.symm
  rcases le_or_lt 0 i with hi | hi
  · have hlt : i < (m : Int) := by omega
    have : i % (m : Int) = i := Int.emod_eq_of_lt hi hlt
    rw [fromTwos, toTwos, this]
    have h2n : (2 : Int) * i.toNat < m := by omega
    have : 2 * i.toNat < m := by exact_mod_cast h2n
    simp [this]
    omega
  · have heq : i % (m : Int) = i + m := by
      have h3 : (i + m) % (m : Int) = i % (m : Int) := by
        have := @Int.add_mul_emod_self_left i (m : Int) 1
        simpa using this
      have h4 : 0 ≤ i + (m : Int) := by omega
      have h5 : i + (m : Int) < (m : Int) := by omega
      rw [← h3, Int.emod_eq_of_lt h4 h5]
    rw [fromTwos, toTwos, heq]
    have h4 : 0 ≤ i + (m : Int) := by omega
    have h6 : ¬ (2 * (i + (m : Int)).toNat < (m : Int)) := by omega
    have h6n : ¬ (2 * (i + (m : Int)).toNat < m) := by exact_mod_cast h6
    simp [h6n]
    omega

/-! ## The AMQP Value model

Modelled from the spec (section 3): the tagged sum over the AMQP primitive
set.  IEEE-754 floats and the decimals are carried as raw bit patterns, and
strings and symbols as their UTF-8 / ASCII byte sequences, so that the
canonicalized in-memory form is exact. -/

/-- A described-type descriptor: a numeric (64-bit) code or a symbolic
name. -/
inductive Descriptor where
  | code (n : Nat)
  | name (s : List Nat)
deriving DecidableEq, Repr

/-- The AMQP value model (spec section 3). -/
inductive Value where
  | vnull
  | vbool (b : Bool)
  | vubyte (n : Nat)
  | vushort (n : Nat)
  | vuint (n : Nat)
  | vulong (n : Nat)
  | vbyte (i : Int)
  | vshort (i : Int)
  | vint (i : Int)
  | vlong (i : Int)
  | vfloat (bits : Nat)
  | vdouble (bits : Nat)
  | vdec32 (bits : Nat)
  | vdec64 (bits : Nat)
  | vdec128 (bits : Nat)
  | vchar (c : Nat)
  | vtimestamp (i : Int)
  | vuuid (u : Nat)
  | vbinary (bs : List Nat)
  | vstring (bs : List Nat)
  | vsymbol (bs : List Nat)
  | vlist (xs : List Value)
  | vmap (ps : List (Value × Value))
  | varray (xs : List Value)
  | vdescribed (d : Descriptor) (v : Value)

/-- The single format code shared by every element of a homogeneous array:
the full-width form of the element constructor (spec section 4.1: arrays
carry one element format code and a homogeneous body encoding). -/
def wideCode : Value → Nat
  | .vnull => 0x40
  | .vbool _ => 0x56
  | .vubyte _ => 0x50
  | .vushort _ => 0x60
  | .vuint _ => 0x70
  | .vulong _ => 0x80
  | .vbyte _ => 0x51
  | .vshort _ => 0x61
  | .vint _ => 0x71
  | .vlong _ => 0x81
  | .vfloat _ => 0x72
  | .vdouble _ => 0x82
  | .vdec32 _ => 0x74
  | .vdec64 _ => 0x84
  | .vdec128 _ => 0x94
  | .vchar _ => 0x73
  | .vtimestamp _ => 0x83
  | .vuuid _ => 0x98
  | .vbinary _ => 0xB0
  | .vstring _ => 0xB1
  | .vsymbol _ => 0xB3
  | .vlist _ => 0xD0
  | .vmap _ => 0xD1
  | .varray _ => 0xF0
  | .vdescribed _ _ => 0x00

/-- The element format code written for an array: the shared wide code of
the elements, with the null code for an empty array. -/
def arrayElemCodeOf : List Value → Nat
  | [] => 0x40
  | x :: _ => wideCode x

/-- Canonical encoding of an unsigned 64-bit value (ulong0 / smallulong /
ulong), used standalone for numeric descriptors. -/
def encodeULong (n : Nat) : Option (List Nat) :=
  if n = 0 then some [0x44]
  else if n < 256 then some [0x53, n]
  else if n < 2 ^ 64 then some ([0x80] ++ beBytes 8 n) else none

/-- Canonical encoding of a symbol (sym8 / sym32), used standalone for
symbolic descriptors. -/
def encodeSymbol (s : List Nat) : Option (List Nat) :=
  if s.all (fun b => b < 256) then
    if s.length < 256 then some ([0xA3, s.length] ++ s)
    else if s.length < 2 ^ 32 then some ([0xB3] ++ beBytes 4 s.length ++ s)
    else none
  else none

/-- Canonical encoding of a descriptor: a ulong for a numeric code, a symbol
for a name. -/
def encodeDescriptor : Descriptor → Option (List Nat)
  | .code n => encodeULong n
  | .name s => encodeSymbol s

mutual

/-- Canonical encoder for a Value.  Modelled from the spec (section 4.1):
every value starts with a format code and the smallest form that fits is
emitted; `none` marks a value outside the representable ranges (or an
inhomogeneous array). -/
def encodeV (v : Value) : Option (List Nat) :=
  match v with
  | .vnull => some [0x40]
  | .vbool true => some [0x41]
  | .vbool false => some [0x42]
  | .vubyte n => if n < 256 then some [0x50, n] else none
  | .vushort n => if n < 2 ^ 16 then some ([0x60] ++ beBytes 2 n) else none
  | .vuint n =>
      if n = 0 then some [0x43]
      else if n < 256 then some [0x52, n]
      else if n < 2 ^ 32 then some ([0x70] ++ beBytes 4 n) else none
  | .vulong n =>
      if n = 0 then some [0x44]
      else if n < 256 then some [0x53, n]
      else if n < 2 ^ 64 then some ([0x80] ++ beBytes 8 n) else none
  | .vbyte i =>
      if -128 ≤ i ∧ i < 128 then some [0x51, toTwos 256 i] else none
  | .vshort i =>
      if -(2 ^ 15) ≤ i ∧ i < 2 ^ 15 then
        some ([0x61] ++ beBytes 2 (toTwos (2 ^ 16) i))
      else none
  | .vint i =>
      if -128 ≤ i ∧ i < 128 then some [0x54, toTwos 256 i]
      else if -(2 ^ 31) ≤ i ∧ i < 2 ^ 31 then
        some ([0x71] ++ beBytes 4 (toTwos (2 ^ 32) i))
      else none
  | .vlong i =>
      if -128 ≤ i ∧ i < 128 then some [0x55, toTwos 256 i]
      else if -(2 ^ 63) ≤ i ∧ i < 2 ^ 63 then
        some ([0x81] ++ beBytes 8 (toTwos (2 ^ 64) i))
      else none
  | .vfloat b => if b < 2 ^ 32 then some ([0x72] ++ beBytes 4 b) else none
  | .vdouble b => if b < 2 ^ 64 then some ([0x82] ++ beBytes 8 b) else none
  | .vdec32 b => if b < 2 ^ 32 then some ([0x74] ++ beBytes 4 b) else none
  | .vdec64 b => if b < 2 ^ 64 then some ([0x84] ++ beBytes 8 b) else none
  | .vdec128 b => if b < 2 ^ 128 then some ([0x94] ++ beBytes 16 b) else none
  | .vchar c => if c < 2 ^ 32 then some ([0x73] ++ beBytes 4 c) else none
  | .vtimestamp i =>
      if -(2 ^ 63) ≤ i ∧ i < 2 ^ 63 then
        some ([0x83] ++ beBytes 8 (toTwos (2 ^ 64) i))
      else none
  | .vuuid u => if u < 2 ^ 128 then some ([0x98] ++ beBytes 16 u) else none
  | .vbinary bs =>
      if bs.all (fun b => b < 256) then
        if bs.length < 256 then some ([0xA0, bs.length] ++ bs)
        else if bs.length < 2 ^ 32 then
          some ([0xB0] ++ beBytes 4 bs.length ++ bs)
        else none
      else none
  | .vstring bs =>
      if bs.all (fun b => b < 256) then
        if bs.length < 256 then some ([0xA1, bs.length] ++ bs)
        else if bs.length < 2 ^ 32 then
          some ([0xB1] ++ beBytes 4 bs.length ++ bs)
        else none
      else none
  | .vsymbol bs =>
      if bs.all (fun b => b < 256) then
        if bs.length < 256 then some ([0xA3, bs.length] ++ bs)
        else if bs.length < 2 ^ 32 then
          some ([0xB3] ++ beBytes 4 bs.length ++ bs)
        else none
      else none
  | .vlist xs => do
      let payload ← encodeListPayload xs
      if xs.length = 0 then some [0x45]
      else if 1 + payload.length < 256 ∧ xs.length < 256 then
        some ([0xC0, 1 + payload.length, xs.length] ++ payload)
      else if 4 + payload.length < 2 ^ 32 ∧ xs.length < 2 ^ 32 then
        some ([0xD0] ++ beBytes 4 (4 + payload.length)
          ++ beBytes 4 xs.length ++ payload)
      else none
  | .vmap ps => do
      let payload ← encodePairsPayload ps
      if 1 + payload.length < 256 ∧ 2 * ps.length < 256 then
        some ([0xC1, 1 + payload.length, 2 * ps.length] ++ payload)
      else if 4 + payload.length < 2 ^ 32 ∧ 2 * ps.length < 2 ^ 32 then
        some ([0xD1] ++ beBytes 4 (4 + payload.length)
          ++ beBytes 4 (2 * ps.length) ++ payload)
      else none
  | .varray xs => do
      let bodies ← encodeArrayBodies (arrayElemCodeOf xs) xs
      if 2 + bodies.length < 256 ∧ xs.length < 256 then
        some ([0xE0, 2 + bodies.length, xs.length, arrayElemCodeOf xs] ++ bodies)
      else if 5 + bodies.length < 2 ^ 32 ∧ xs.length < 2 ^ 32 then
        some ([0xF0] ++ beBytes 4 (5 + bodies.length)
          ++ beBytes 4 xs.length ++ [arrayElemCodeOf xs] ++ bodies)
      else none
  | .vdescribed d v => do
      let ds ← encodeDescriptor d
      let vs ← encodeV v
      some ([0x00] ++ ds ++ vs)

/-- Concatenated canonical encodings of list elements. -/
def encodeListPayload (xs : List Value) : Option (List Nat) :=
  match xs with
  | [] => some []
  | x :: rest => do
      let b ← encodeV x
      let bs ← encodeListPayload rest
      some (b ++ bs)

/-- Concatenated canonical encodings of map entries, key then value. -/
def encodePairsPayload (ps : List (Value × Value)) : Option (List Nat) :=
  match ps with
  | [] => some []
  | (k, v) :: rest => do
      let kb ← encodeV k
      let vb ← encodeV v
      let bs ← encodePairsPayload rest
      some (kb ++ vb ++ bs)

/-- Concatenated wide bodies of array elements, all of which must carry the
shared element format code `k`. -/
def encodeArrayBodies (k : Nat) (xs : List Value) : Option (List Nat) :=
  match xs with
  | [] => some []
  | x :: rest =>
      if wideCode x = k then do
        let b ← encodeWideBody x
        let bs ← encodeArrayBodies k rest
        some (b ++ bs)
      else none

/-- The body (everything after the format code) of the full-width encoding
selected by `wideCode`, used for array elements. -/
def encodeWideBody (v : Value) : Option (List Nat) :=
  match v with
  | .vnull => some []
  | .vbool b => some [if b then 1 else 0]
  | .vubyte n => if n < 256 then some [n] else none
  | .vushort n => if n < 2 ^ 16 then some (beBytes 2 n) else none
  | .vuint n => if n < 2 ^ 32 then some (beBytes 4 n) else none
  | .vulong n => if n < 2 ^ 64 then some (beBytes 8 n) else none
  | .vbyte i => if -128 ≤ i ∧ i < 128 then some [toTwos 256 i] else none
  | .vshort i =>
      if -(2 ^ 15) ≤ i ∧ i < 2 ^ 15 then some (beBytes 2 (toTwos (2 ^ 16) i))
      else none
  | .vint i =>
      if -(2 ^ 31) ≤ i ∧ i < 2 ^ 31 then some (beBytes 4 (toTwos (2 ^ 32) i))
      else none
  | .vlong i =>
      if -(2 ^ 63) ≤ i ∧ i < 2 ^ 63 then some (beBytes 8 (toTwos (2 ^ 64) i))
      else none
  | .vfloat b => if b < 2 ^ 32 then some (beBytes 4 b) else none
  | .vdouble b => if b < 2 ^ 64 then some (beBytes 8 b) else none
  | .vdec32 b => if b < 2 ^ 32 then some (beBytes 4 b) else none
  | .vdec64 b => if b < 2 ^ 64 then some (beBytes 8 b) else none
  | .vdec128 b => if b < 2 ^ 128 then some (beBytes 16 b) else none
  | .vchar c => if c < 2 ^ 32 then some (beBytes 4 c) else none
  | .vtimestamp i =>
      if -(2 ^ 63) ≤ i ∧ i < 2 ^ 63 then some (beBytes 8 (toTwos (2 ^ 64) i))
      else none
  | .vuuid u => if u < 2 ^ 128 then some (beBytes 16 u) else none
  | .vbinary bs =>
      if bs.all (fun b => b < 256) ∧ bs.length < 2 ^ 32 then
        some (beBytes 4 bs.length ++ bs)
      else none
  | .vstring bs =>
      if bs.all (fun b => b < 256) ∧ bs.length < 2 ^ 32 then
        some (beBytes 4 bs.length ++ bs)
      else none
  | .vsymbol bs =>
      if bs.all (fun b => b < 256) ∧ bs.length < 2 ^ 32 then
        some (beBytes 4 bs.length ++ bs)
      else none
  | .vlist xs => do
      let payload ← encodeListPayload xs
      if 4 + payload.length < 2 ^ 32 ∧ xs.length < 2 ^ 32 then
        some (beBytes 4 (4 + payload.length) ++ beBytes 4 xs.length ++ payload)
      else none
  | .vmap ps => do
      let payload ← encodePairsPayload ps
      if 4 + payload.length < 2 ^ 32 ∧ 2 * ps.length < 2 ^ 32 then
        some (beBytes 4 (4 + payload.length)
          ++ beBytes 4 (2 * ps.length) ++ payload)
      else none
  | .varray xs => do
      let bodies ← encodeArrayBodies (arrayElemCodeOf xs) xs
      if 5 + bodies.length < 2 ^ 32 ∧ xs.length < 2 ^ 32 then
        some (beBytes 4 (5 + bodies.length) ++ beBytes 4 xs.length
          ++ [arrayElemCodeOf xs] ++ bodies)
      else none
  | .vdescribed d v => do
      let ds ← encodeDescriptor d
      let vs ← encodeV v
      some (ds ++ vs)

end

mutual

/-- Fueled decoder for a Value: reads the format code and dispatches on it.
Fuel is consumed once per compound nesting level, so any fuel at least the
nesting depth of the encoded value suffices.  Modelled from the spec
(section 4.1); decode failures are collapsed to `none`. -/
def decodeV (f : Nat) (bs : List Nat) : Option (Value × List Nat) :=
  match bs with
  | [] => none
  | c :: rest => decodeBody f c rest
termination_by (f, 0, 1)

/-- Decode the body of a value whose format code `c` has already been
read. -/
def decodeBody (f c : Nat) (bs : List Nat) : Option (Value × List Nat) :=
  match c with
  | 0x40 => some (.vnull, bs)
  | 0x41 => some (.vbool true, bs)
  | 0x42 => some (.vbool false, bs)
  | 0x56 =>
      match bs with
      | 0 :: rest => some (.vbool false, rest)
      | 1 :: rest => some (.vbool true, rest)
      | _ => none
  | 0x50 =>
      match bs with
      | n :: rest => some (.vubyte n, rest)
      | _ => none
  | 0x60 => do
      let (n, rest) ← readBE 2 bs
      some (.vushort n, rest)
  | 0x43 => some (.vuint 0, bs)
  | 0x52 =>
      match bs with
      | n :: rest => some (.vuint n, rest)
      | _ => none
  | 0x70 => do
      let (n, rest) ← readBE 4 bs
      some (.vuint n, rest)
  | 0x44 => some (.vulong 0, bs)
  | 0x53 =>
      match bs with
      | n :: rest => some (.vulong n, rest)
      | _ => none
  | 0x80 => do
      let (n, rest) ← readBE 8 bs
      some (.vulong n, rest)
  | 0x51 =>
      match bs with
      | n :: rest => some (.vbyte (fromTwos 256 n), rest)
      | _ => none
  | 0x61 => do
      let (n, rest) ← readBE 2 bs
      some (.vshort (fromTwos (2 ^ 16) n), rest)
  | 0x54 =>
      match bs with
      | n :: rest => some (.vint (fromTwos 256 n), rest)
      | _ => none
  | 0x71 => do
      let (n, rest) ← readBE 4 bs
      some (.vint (fromTwos (2 ^ 32) n), rest)
  | 0x55 =>
      match bs with
      | n :: rest => some (.vlong (fromTwos 256 n), rest)
      | _ => none
  | 0x81 => do
      let (n, rest) ← readBE 8 bs
      some (.vlong (fromTwos (2 ^ 64) n), rest)
  | 0x72 => do
      let (n, rest) ← readBE 4 bs
      some (.vfloat n, rest)
  | 0x82 => do
      let (n, rest) ← readBE 8 bs
      some (.vdouble n, rest)
  | 0x74 => do
      let (n, rest) ← readBE 4 bs
      some (.vdec32 n, rest)
  | 0x84 => do
      let (n, rest) ← readBE 8 bs
      some (.vdec64 n, rest)
  | 0x94 => do
      let (n, rest) ← readBE 16 bs
      some (.vdec128 n, rest)
  | 0x73 => do
      let (n, rest) ← readBE 4 bs
      some (.vchar n, rest)
  | 0x83 => do
      let (n, rest) ← readBE 8 bs
      some (.vtimestamp (fromTwos (2 ^ 64) n), rest)
  | 0x98 => do
      let (n, rest) ← readBE 16 bs
      some (.vuuid n, rest)
  | 0xA0 => do
      let (len, r1) ← readBE 1 bs
      let (payload, r2) ← readN len r1
      some (.vbinary payload, r2)
  | 0xB0 => do
      let (len, r1) ← readBE 4 bs
      let (payload, r2) ← readN len r1
      some (.vbinary payload, r2)
  | 0xA1 => do
      let (len, r1) ← readBE 1 bs
      let (payload, r2) ← readN len r1
      some (.vstring payload, r2)
  | 0xB1 => do
      let (len, r1) ← readBE 4 bs
      let (payload, r2) ← readN len r1
      some (.vstring payload, r2)
  | 0xA3 => do
      let (len, r1) ← readBE 1 bs
      let (payload, r2) ← readN len r1
      some (.vsymbol payload, r2)
  | 0xB3 => do
      let (len, r1) ← readBE 4 bs
      let (payload, r2) ← readN len r1
      some (.vsymbol payload, r2)
  | 0x45 => some (.vlist [], bs)
  | 0xC0 =>
      match f with
      | 0 => none
      | f + 1 => do
          let (size, r1) ← readBE 1 bs
          let (count, r2) ← readBE 1 r1
          -- SizeMismatch: the declared size must not exceed the remaining bytes
          if r2.length + 1 < size then none
          else do
            let (xs, r3) ← decodeMany f count r2
            some (.vlist xs, r3)
  | 0xD0 =>
      match f with
      | 0 => none
      | f + 1 => do
          let (size, r1) ← readBE 4 bs
          let (count, r2) ← readBE 4 r1
          if r2.length + 4 < size then none
          else do
            let (xs, r3) ← decodeMany f count r2
            some (.vlist xs, r3)
  | 0xC1 =>
      match f with
      | 0 => none
      | f + 1 => do
          let (size, r1) ← readBE 1 bs
          let (count, r2) ← readBE 1 r1
          if r2.length + 1 < size then none
          else if count % 2 = 1 then none
          else do
            let (ps, r3) ← decodePairs f (count / 2) r2
            some (.vmap ps, r3)
  | 0xD1 =>
      match f with
      | 0 => none
      | f + 1 => do
          let (size, r1) ← readBE 4 bs
          let (count, r2) ← readBE 4 r1
          if r2.length + 4 < size then none
          else if count % 2 = 1 then none
          else do
            let (ps, r3) ← decodePairs f (count / 2) r2
            some (.vmap ps, r3)
  | 0xE0 =>
      match f with
      | 0 => none
      | f + 1 => do
          let (size, r1) ← readBE 1 bs
          let (count, r2) ← readBE 1 r1
          let (elemCode, r3) ← readBE 1 r2
          if r3.length + 2 < size then none
          else do
            let (xs, r4) ← decodeBodies f elemCode count r3
            some (.varray xs, r4)
  | 0xF0 =>
      match f with
      | 0 => none
      | f + 1 => do
          let (size, r1) ← readBE 4 bs
          let (count, r2) ← readBE 4 r1
          let (elemCode, r3) ← readBE 1 r2
          if r3.length + 5 < size then none
          else do
            let (xs, r4) ← decodeBodies f elemCode count r3
            some (.varray xs, r4)
  | 0x00 =>
      match f with
      | 0 => none
      | f + 1 => do
          let (dv, r1) ← decodeV f bs
          let d ← match dv with
            | .vulong n => some (Descriptor.code n)
            | .vsymbol s => some (Descriptor.name s)
            | _ => none
          let (v, r2) ← decodeV f r1
          some (.vdescribed d v, r2)
  | _ => none
termination_by (f, 0, 0)

/-- Decode `count` consecutive values (list elements). -/
def decodeMany (f count : Nat) (bs : List Nat) : Option (List Value × List Nat) :=
  match count with
  | 0 => some ([], bs)
  | count + 1 => do
      let (v, r1) ← decodeV f bs
      let (vs, r2) ← decodeMany f count r1
      some (v :: vs, r2)
termination_by (f, count, 2)

/-- Decode `count` consecutive key-value pairs (map entries). -/
def decodePairs (f count : Nat) (bs : List Nat) : Option (List (Value × Value) × List Nat) :=
  match count with
  | 0 => some ([], bs)
  | count + 1 => do
      let (k, r1) ← decodeV f bs
      let (v, r2) ← decodeV f r1
      let (ps, r3) ← decodePairs f count r2
      some ((k, v) :: ps, r3)
termination_by (f, count, 2)

/-- Decode `count` consecutive array element bodies, each carrying the shared
element format code. -/
def decodeBodies (f elemCode count : Nat) (bs : List Nat) : Option (List Value × List Nat) :=
  match count with
  | 0 => some ([], bs)
  | count + 1 => do
      let (v, r1) ← decodeBody f elemCode bs
      let (vs, r2) ← decodeBodies f elemCode count r1
      some (v :: vs, r2)
termination_by (f, count, 2)

end

/-- Top-level decode: parse one value off the byte stream with ample fuel and
require the input to be fully consumed. -/
def amqpDecode (bs : List Nat) : Option Value :=
  match decodeV bs.length bs with
  | some (v, []) => some v
  | _ => none

/-! ## Round-trip proof infrastructure -/

mutual

/-- Compound nesting depth of a value: the decoder fuel it needs. -/
def fuelNeed : Value → Nat
  | .vlist xs => 1 + fuelNeedL xs
  | .vmap ps => 1 + fuelNeedP ps
  | .varray xs => 1 + fuelNeedL xs
  | .vdescribed _ v => 1 + fuelNeed v
  | _ => 0

/-- Greatest nesting depth among list elements. -/
def fuelNeedL : List Value → Nat
  | [] => 0
  | x :: xs => max (fuelNeed x) (fuelNeedL xs)

/-- Greatest nesting depth among map entries. -/
def fuelNeedP : List (Value × Value) → Nat
  | [] => 0
  | (k, v) :: ps => max (fuelNeed k) (max (fuelNeed v) (fuelNeedP ps))

end

/-- Round-trip property of the canonical encoding of `v`: with enough fuel,
decoding its encoding returns `v` and leaves trailing bytes untouched. -/
def EncDecV (v : Value) : Prop :=
  ∀ (f : Nat) (bs rest : List Nat), fuelNeed v ≤ f → encodeV v = some bs →
    decodeV f (bs ++ rest) = some (v, rest)

/-- Round-trip property of the wide (array element) body encoding of `v`. -/
def EncDecB (v : Value) : Prop :=
  ∀ (f : Nat) (bs rest : List Nat), fuelNeed v ≤ f → encodeWideBody v = some bs →
    decodeBody f (wideCode v) (bs ++ rest) = some (v, rest)

/-- The canonical encoding is at least as long as the fuel the decoder
needs. -/
def FuelLeV (v : Value) : Prop :=
  ∀ bs : List Nat, encodeV v = some bs → fuelNeed v ≤ bs.length

/-- The wide body encoding is at most one byte shorter than the fuel the
decoder needs. -/
def FuelLeB (v : Value) : Prop :=
  ∀ bs : List Nat, encodeWideBody v = some bs → fuelNeed v ≤ bs.length + 1

/-- All four codec obligations for one value. -/
def CodecOK (v : Value) : Prop :=
  EncDecV v ∧ EncDecB v ∧ FuelLeV v ∧ FuelLeB v

theorem value_sizeOf_pos (v : Value) : 0 < sizeOf v := by
  cases v <;> simp

theorem readBE_one (a : Nat) (l : List Nat) : readBE 1 (a :: l) = some (a, l) := by
  have h1 : readN 1 (a :: l) = some ([a], l) := by simp [readN]
  simp [readBE, h1, fromBE]

theorem codecOK_vnull : CodecOK .vnull := by
  refine ⟨?_, ?_, ?_, ?_⟩
  · intro f bs rest hf henc
    simp [encodeV] at henc
    subst henc
    simp [decodeV, decodeBody]
  · intro f bs rest hf henc
    simp [encodeWideBody] at henc
    subst henc
    simp [decodeBody, wideCode]
  · intro bs henc
    simp [fuelNeed]
  · intro bs henc
    simp [fuelNeed]

theorem codecOK_vubyte (n : Nat) : CodecOK (.vubyte n) := by
  refine ⟨?_, ?_, ?_, ?_⟩
  · intro f bs rest hf henc
    simp only [encodeV] at henc
    split at henc
    · simp at henc
      subst henc
      simp [decodeV, decodeBody]
    · simp at henc
  · intro f bs rest hf henc
    simp only [encodeWideBody] at henc
    split at henc
    · simp at henc
      subst henc
      simp [decodeBody, wideCode]
    · simp at henc
  · intro bs henc
    simp [fuelNeed]
  · intro bs henc
    simp [fuelNeed]

theorem codecOK_vushort (n : Nat) : CodecOK (.vushort n) := by
  refine ⟨?_, ?_, ?_, ?_⟩
  · intro f bs rest hf henc
    simp only [encodeV] at henc
    split at henc
    case isTrue h =>
      simp at henc
      subst henc
      have hlt : n < 256 ^ 2 := by norm_num at h ⊢; omega
      simp [decodeV, decodeBody, List.append_assoc, readBE_append 2 n rest hlt]
    case isFalse h => simp at henc
  · intro f bs rest hf henc
    simp only [encodeWideBody] at henc
    split at henc
    case isTrue h =>
      simp at henc
      subst henc
      have hlt : n < 256 ^ 2 := by norm_num at h ⊢; omega
      simp [decodeBody, wideCode, readBE_append 2 n rest hlt]
    case isFalse h => simp at henc
  · intro bs henc
    simp [fuelNeed]
  · intro bs henc
    simp [fuelNeed]

theorem codecOK_vbyte (i : Int) : CodecOK (.vbyte i) := by
  refine ⟨?_, ?_, ?_, ?_⟩
  · intro f bs rest hf henc
    simp only [encodeV] at henc
    split at henc
    case isTrue h =>
      simp at henc
      subst henc
      have hft : fromTwos 256 (toTwos 256 i) = i :=
        fromTwos_toTwos 256 i (by omega) (by omega)
      simp [decodeV, decodeBody, hft]
    case isFalse h => simp at henc
  · intro f bs rest hf henc
    simp only [encodeWideBody] at henc
    split at henc
    case isTrue h =>
      simp at henc
      subst henc
      have hft : fromTwos 256 (toTwos 256 i) = i :=
        fromTwos_toTwos 256 i (by omega) (by omega)
      simp [decodeBody, wideCode, hft]
    case isFalse h => simp at henc
  · intro bs henc
    simp [fuelNeed]
  · intro bs henc
    simp [fuelNeed]

theorem codecOK_vbool (b : Bool) : CodecOK (.vbool b) := by
  refine ⟨?_, ?_, ?_, ?_⟩
  · intro f bs rest hf henc
    cases b <;> simp [encodeV] at henc <;> subst henc <;>
      simp [decodeV, decodeBody]
  · intro f bs rest hf henc
    cases b <;> simp [encodeWideBody] at henc <;> subst henc <;>
      simp [decodeBody, wideCode]
  · intro bs henc
    simp [fuelNeed]
  · intro bs henc
    simp [fuelNeed]

theorem codecOK_vuint (n : Nat) : CodecOK (.vuint n) := by
  refine ⟨?_, ?_, ?_, ?_⟩
  · intro f bs rest hf henc
    simp only [encodeV] at henc
    split at henc
    case isTrue h =>
      simp at henc
      subst henc h
      simp [decodeV, decodeBody]
    case isFalse h0 =>
      split at henc
      case isTrue h =>
        simp at henc
        subst henc
        simp [decodeV, decodeBody]
      case isFalse h1 =>
        split at henc
        case isTrue h =>
          simp at henc
          subst henc
          have hlt : n < 256 ^ 4 := by norm_num at h ⊢; omega
          simp [decodeV, decodeBody, List.append_assoc, readBE_append 4 n rest hlt]
        case isFalse h => simp at henc
  · intro f bs rest hf henc
    simp only [encodeWideBody] at henc
    split at henc
    case isTrue h =>
      simp at henc
      subst henc
      have hlt : n < 256 ^ 4 := by norm_num at h ⊢; omega
      simp [decodeBody, wideCode, readBE_append 4 n rest hlt]
    case isFalse h => simp at henc
  · intro bs henc
    simp [fuelNeed]
  · intro bs henc
    simp [fuelNeed]

theorem codecOK_vulong (n : Nat) : CodecOK (.vulong n) := by
  refine ⟨?_, ?_, ?_, ?_⟩
  · intro f bs rest hf henc
    simp only [encodeV] at henc
    split at henc
    case isTrue h =>
      simp at henc
      subst henc h
      simp [decodeV, decodeBody]
    case isFalse h0 =>
      split at henc
      case isTrue h =>
        simp at henc
        subst henc
        simp [decodeV, decodeBody]
      case isFalse h1 =>
        split at henc
        case isTrue h =>
          simp at henc
          subst henc
          have hlt : n < 256 ^ 8 := by norm_num at h ⊢; omega
          simp [decodeV, decodeBody, List.append_assoc, readBE_append 8 n rest hlt]
        case isFalse h => simp at henc
  · intro f bs rest hf henc
    simp only [encodeWideBody] at henc
    split at henc
    case isTrue h =>
      simp at henc
      subst henc
      have hlt : n < 256 ^ 8 := by norm_num at h ⊢; omega
      simp [decodeBody, wideCode, readBE_append 8 n rest hlt]
    case isFalse h => simp at henc
  · intro bs henc
    simp [fuelNeed]
  · intro bs henc
    simp [fuelNeed]

theorem codecOK_vshort (i : Int) : CodecOK (.vshort i) := by
  have hm : (0 : Nat) < 65536 := by norm_num
  refine ⟨?_, ?_, ?_, ?_⟩
  · intro f bs rest hf henc
    simp only [encodeV] at henc
    split at henc
    case isTrue h =>
      simp at henc
      subst henc
      have hlt : toTwos 65536 i < 256 ^ 2 := by
        have := toTwos_lt 65536 i hm
        norm_num
        omega
      have hft : fromTwos 65536 (toTwos 65536 i) = i := by
        refine fromTwos_toTwos 65536 i ?_ ?_ <;> norm_num at h ⊢ <;> omega
      simp [decodeV, decodeBody, List.append_assoc,
        readBE_append 2 (toTwos 65536 i) rest hlt, hft]
    case isFalse h => simp at henc
  · intro f bs rest hf henc
    simp only [encodeWideBody] at henc
    split at henc
    case isTrue h =>
      simp at henc
      subst henc
      have hlt : toTwos 65536 i < 256 ^ 2 := by
        have := toTwos_lt 65536 i hm
        norm_num
        omega
      have hft : fromTwos 65536 (toTwos 65536 i) = i := by
        refine fromTwos_toTwos 65536 i ?_ ?_ <;> norm_num at h ⊢ <;> omega
      simp [decodeBody, wideCode, readBE_append 2 (toTwos 65536 i) rest hlt, hft]
    case isFalse h => simp at henc
  · intro bs henc
    simp [fuelNeed]
  · intro bs henc
    simp [fuelNeed]

theorem codecOK_vint (i : Int) : CodecOK (.vint i) := by
  refine ⟨?_, ?_, ?_, ?_⟩
  · intro f bs rest hf henc
    simp only [encodeV] at henc
    split at henc
    case isTrue h =>
      simp at henc
      subst henc
      have hft : fromTwos 256 (toTwos 256 i) = i := by
        refine fromTwos_toTwos 256 i ?_ ?_ <;> norm_num at h ⊢ <;> omega
      simp [decodeV, decodeBody, hft]
    case isFalse h0 =>
      split at henc
      case isTrue h =>
        simp at henc
        subst henc
        have hlt : toTwos 4294967296 i < 256 ^ 4 := by
          have := toTwos_lt 4294967296 i (by norm_num)
          norm_num
          omega
        have hft : fromTwos 4294967296 (toTwos 4294967296 i) = i := by
          refine fromTwos_toTwos 4294967296 i ?_ ?_ <;> norm_num at h ⊢ <;> omega
        simp [decodeV, decodeBody, List.append_assoc,
          readBE_append 4 (toTwos 4294967296 i) rest hlt, hft]
      case isFalse h => simp at henc
  · intro f bs rest hf henc
    simp only [encodeWideBody] at henc
    split at henc
    case isTrue h =>
      simp at henc
      subst henc
      have hlt : toTwos 4294967296 i < 256 ^ 4 := by
        have := toTwos_lt 4294967296 i (by norm_num)
        norm_num
        omega
      have hft : fromTwos 4294967296 (toTwos 4294967296 i) = i := by
        refine fromTwos_toTwos 4294967296 i ?_ ?_ <;> norm_num at h ⊢ <;> omega
      simp [decodeBody, wideCode, readBE_append 4 (toTwos 4294967296 i) rest hlt, hft]
    case isFalse h => simp at henc
  · intro bs henc
    simp [fuelNeed]
  · intro bs henc
    simp [fuelNeed]

theorem codecOK_vlong (i : Int) : CodecOK (.vlong i) := by
  refine ⟨?_, ?_, ?_, ?_⟩
  · intro f bs rest hf henc
    simp only [encodeV] at henc
    split at henc
    case isTrue h =>
      simp at henc
      subst henc
      have hft : fromTwos 256 (toTwos 256 i) = i := by
        refine fromTwos_toTwos 256 i ?_ ?_ <;> norm_num at h ⊢ <;> omega
      simp [decodeV, decodeBody, hft]
    case isFalse h0 =>
      split at henc
      case isTrue h =>
        simp at henc
        subst henc
        have hlt : toTwos 18446744073709551616 i < 256 ^ 8 := by
          have := toTwos_lt 18446744073709551616 i (by norm_num)
          norm_num
          omega
        have hft : fromTwos 18446744073709551616 (toTwos 18446744073709551616 i) = i := by
          refine fromTwos_toTwos 18446744073709551616 i ?_ ?_ <;>
            norm_num at h ⊢ <;> omega
        simp [decodeV, decodeBody, List.append_assoc,
          readBE_append 8 (toTwos 18446744073709551616 i) rest hlt, hft]
      case isFalse h => simp at henc
  · intro f bs rest hf henc
    simp only [encodeWideBody] at henc
    split at henc
    case isTrue h =>
      simp at henc
      subst henc
      have hlt : toTwos 18446744073709551616 i < 256 ^ 8 := by
        have := toTwos_lt 18446744073709551616 i (by norm_num)
        norm_num
        omega
      have hft : fromTwos 18446744073709551616 (toTwos 18446744073709551616 i) = i := by
        refine fromTwos_toTwos 18446744073709551616 i ?_ ?_ <;>
          norm_num at h ⊢ <;> omega
      simp [decodeBody, wideCode,
        readBE_append 8 (toTwos 18446744073709551616 i) rest hlt, hft]
    case isFalse h => simp at henc
  · intro bs henc
    simp [fuelNeed]
  · intro bs henc
    simp [fuelNeed]

theorem codecOK_vtimestamp (i : Int) : CodecOK (.vtimestamp i) := by
  refine ⟨?_, ?_, ?_, ?_⟩
  · intro f bs rest hf henc
    simp only [encodeV] at henc
    split at henc
    case isTrue h =>
      simp at henc
      subst henc
      have hlt : toTwos 18446744073709551616 i < 256 ^ 8 := by
        have := toTwos_lt 18446744073709551616 i (by norm_num)
        norm_num
        omega
      have hft : fromTwos 18446744073709551616 (toTwos 18446744073709551616 i) = i := by
        refine fromTwos_toTwos 18446744073709551616 i ?_ ?_ <;>
          norm_num at h ⊢ <;> omega
      simp [decodeV, decodeBody, List.append_assoc,
        readBE_append 8 (toTwos 18446744073709551616 i) rest hlt, hft]
    case isFalse h => simp at henc
  · intro f bs rest hf henc
    simp only [encodeWideBody] at henc
    split at henc
    case isTrue h =>
      simp at henc
      subst henc
      have hlt : toTwos 18446744073709551616 i < 256 ^ 8 := by
        have := toTwos_lt 18446744073709551616 i (by norm_num)
        norm_num
        omega
      have hft : fromTwos 18446744073709551616 (toTwos 18446744073709551616 i) = i := by
        refine fromTwos_toTwos 18446744073709551616 i ?_ ?_ <;>
          norm_num at h ⊢ <;> omega
      simp [decodeBody, wideCode,
        readBE_append 8 (toTwos 18446744073709551616 i) rest hlt, hft]
    case isFalse h => simp at henc
  · intro bs henc
    simp [fuelNeed]
  · intro bs henc
    simp [fuelNeed]

theorem codecOK_vfloat (b : Nat) : CodecOK (.vfloat b) := by
  refine ⟨?_, ?_, ?_, ?_⟩
  · intro f bs rest hf henc
    simp only [encodeV] at henc
    split at henc
    case isTrue h =>
      simp at henc
      subst henc
      have hlt : b < 256 ^ 4 := by norm_num at h ⊢; omega
      simp [decodeV, decodeBody, List.append_assoc, readBE_append 4 b rest hlt]
    case isFalse h => simp at henc
  · intro f bs rest hf henc
    simp only [encodeWideBody] at henc
    split at henc
    case isTrue h =>
      simp at henc
      subst henc
      have hlt : b < 256 ^ 4 := by norm_num at h ⊢; omega
      simp [decodeBody, wideCode, readBE_append 4 b rest hlt]
    case isFalse h => simp at henc
  · intro bs henc
    simp [fuelNeed]
  · intro bs henc
    simp [fuelNeed]

theorem codecOK_vdouble (b : Nat) : CodecOK (.vdouble b) := by
  refine ⟨?_, ?_, ?_, ?_⟩
  · intro f bs rest hf henc
    simp only [encodeV] at henc
    split at henc
    case isTrue h =>
      simp at henc
      subst henc
      have hlt : b < 256 ^ 8 := by norm_num at h ⊢; omega
      simp [decodeV, decodeBody, List.append_assoc, readBE_append 8 b rest hlt]
    case isFalse h => simp at henc
  · intro f bs rest hf henc
    simp only [encodeWideBody] at henc
    split at henc
    case isTrue h =>
      simp at henc
      subst henc
      have hlt : b < 256 ^ 8 := by norm_num at h ⊢; omega
      simp [decodeBody, wideCode, readBE_append 8 b rest hlt]
    case isFalse h => simp at henc
  · intro bs henc
    simp [fuelNeed]
  · intro bs henc
    simp [fuelNeed]

theorem codecOK_vdec32 (b : Nat) : CodecOK (.vdec32 b) := by
  refine ⟨?_, ?_, ?_, ?_⟩
  · intro f bs rest hf henc
    simp only [encodeV] at henc
    split at henc
    case isTrue h =>
      simp at henc
      subst henc
      have hlt : b < 256 ^ 4 := by norm_num at h ⊢; omega
      simp [decodeV, decodeBody, List.append_assoc, readBE_append 4 b rest hlt]
    case isFalse h => simp at henc
  · intro f bs rest hf henc
    simp only [encodeWideBody] at henc
    split at henc
    case isTrue h =>
      simp at henc
      subst henc
      have hlt : b < 256 ^ 4 := by norm_num at h ⊢; omega
      simp [decodeBody, wideCode, readBE_append 4 b rest hlt]
    case isFalse h => simp at henc
  · intro bs henc
    simp [fuelNeed]
  · intro bs henc
    simp [fuelNeed]

theorem codecOK_vdec64 (b : Nat) : CodecOK (.vdec64 b) := by
  refine ⟨?_, ?_, ?_, ?_⟩
  · intro f bs rest hf henc
    simp only [encodeV] at henc
    split at henc
    case isTrue h =>
      simp at henc
      subst henc
      have hlt : b < 256 ^ 8 := by norm_num at h ⊢; omega
      simp [decodeV, decodeBody, List.append_assoc, readBE_append 8 b rest hlt]
    case isFalse h => simp at henc
  · intro f bs rest hf henc
    simp only [encodeWideBody] at henc
    split at henc
    case isTrue h =>
      simp at henc
      subst henc
      have hlt : b < 256 ^ 8 := by norm_num at h ⊢; omega
      simp [decodeBody, wideCode, readBE_append 8 b rest hlt]
    case isFalse h => simp at henc
  · intro bs henc
    simp [fuelNeed]
  · intro bs henc
    simp [fuelNeed]

theorem codecOK_vdec128 (b : Nat) : CodecOK (.vdec128 b) := by
  refine ⟨?_, ?_, ?_, ?_⟩
  · intro f bs rest hf henc
    simp only [encodeV] at henc
    split at henc
    case isTrue h =>
      simp at henc
      subst henc
      have hlt : b < 256 ^ 16 := by norm_num at h ⊢; omega
      simp [decodeV, decodeBody, List.append_assoc, readBE_append 16 b rest hlt]
    case isFalse h => simp at henc
  · intro f bs rest hf henc
    simp only [encodeWideBody] at henc
    split at henc
    case isTrue h =>
      simp at henc
      subst henc
      have hlt : b < 256 ^ 16 := by norm_num at h ⊢; omega
      simp [decodeBody, wideCode, readBE_append 16 b rest hlt]
    case isFalse h => simp at henc
  · intro bs henc
    simp [fuelNeed]
  · intro bs henc
    simp [fuelNeed]

theorem codecOK_vchar (c : Nat) : CodecOK (.vchar c) := by
  refine ⟨?_, ?_, ?_, ?_⟩
  · intro f bs rest hf henc
    simp only [encodeV] at henc
    split at henc
    case isTrue h =>
      simp at henc
      subst henc
      have hlt : c < 256 ^ 4 := by norm_num at h ⊢; omega
      simp [decodeV, decodeBody, List.append_assoc, readBE_append 4 c rest hlt]
    case isFalse h => simp at henc
  · intro f bs rest hf henc
    simp only [encodeWideBody] at henc
    split at henc
    case isTrue h =>
      simp at henc
      subst henc
      have hlt : c < 256 ^ 4 := by norm_num at h ⊢; omega
      simp [decodeBody, wideCode, readBE_append 4 c rest hlt]
    case isFalse h => simp at henc
  · intro bs henc
    simp [fuelNeed]
  · intro bs henc
    simp [fuelNeed]

theorem codecOK_vuuid (u : Nat) : CodecOK (.vuuid u) := by
  refine ⟨?_, ?_, ?_, ?_⟩
  · intro f bs rest hf henc
    simp only [encodeV] at henc
    split at henc
    case isTrue h =>
      simp at henc
      subst henc
      have hlt : u < 256 ^ 16 := by norm_num at h ⊢; omega
      simp [decodeV, decodeBody, List.append_assoc, readBE_append 16 u rest hlt]
    case isFalse h => simp at henc
  · intro f bs rest hf henc
    simp only [encodeWideBody] at henc
    split at henc
    case isTrue h =>
      simp at henc
      subst henc
      have hlt : u < 256 ^ 16 := by norm_num at h ⊢; omega
      simp [decodeBody, wideCode, readBE_append 16 u rest hlt]
    case isFalse h => simp at henc
  · intro bs henc
    simp [fuelNeed]
  · intro bs henc
    simp [fuelNeed]

theorem codecOK_vbinary (d : List Nat) : CodecOK (.vbinary d) := by
  refine ⟨?_, ?_, ?_, ?_⟩
  · intro f bs rest hf henc
    simp only [encodeV] at henc
    split at henc
    case isTrue hall =>
      split at henc
      case isTrue h8 =>
        simp at henc
        subst henc
        have hrn : readN d.length (d ++ rest) = some (d, rest) :=
          readN_append _ _ _ rfl
        simp [decodeV, decodeBody, readBE_one, hrn]
      case isFalse h8 =>
        split at henc
        case isTrue h32 =>
          simp at henc
          subst henc
          have hlt : d.length < 256 ^ 4 := by norm_num at h32 ⊢; omega
          have hrn : readN d.length (d ++ rest) = some (d, rest) :=
            readN_append _ _ _ rfl
          simp [decodeV, decodeBody, List.append_assoc,
            readBE_append 4 d.length (d ++ rest) hlt, hrn]
        case isFalse h => simp at henc
    case isFalse h => simp at henc
  · intro f bs rest hf henc
    simp only [encodeWideBody] at henc
    split at henc
    case isTrue h =>
      simp at henc
      subst henc
      have hlt : d.length < 256 ^ 4 := by norm_num at h ⊢; omega
      have hrn : readN d.length (d ++ rest) = some (d, rest) :=
        readN_append _ _ _ rfl
      simp [decodeBody, wideCode, List.append_assoc,
        readBE_append 4 d.length (d ++ rest) hlt, hrn]
    case isFalse h => simp at henc
  · intro bs henc
    simp [fuelNeed]
  · intro bs henc
    simp [fuelNeed]

theorem codecOK_vstring (d : List Nat) : CodecOK (.vstring d) := by
  refine ⟨?_, ?_, ?_, ?_⟩
  · intro f bs rest hf henc
    simp only [encodeV] at henc
    split at henc
    case isTrue hall =>
      split at henc
      case isTrue h8 =>
        simp at henc
        subst henc
        have hrn : readN d.length (d ++ rest) = some (d, rest) :=
          readN_append _ _ _ rfl
        simp [decodeV, decodeBody, readBE_one, hrn]
      case isFalse h8 =>
        split at henc
        case isTrue h32 =>
          simp at henc
          subst henc
          have hlt : d.length < 256 ^ 4 := by norm_num at h32 ⊢; omega
          have hrn : readN d.length (d ++ rest) = some (d, rest) :=
            readN_append _ _ _ rfl
          simp [decodeV, decodeBody, List.append_assoc,
            readBE_append 4 d.length (d ++ rest) hlt, hrn]
        case isFalse h => simp at henc
    case isFalse h => simp at henc
  · intro f bs rest hf henc
    simp only [encodeWideBody] at henc
    split at henc
    case isTrue h =>
      simp at henc
      subst henc
      have hlt : d.length < 256 ^ 4 := by norm_num at h ⊢; omega
      have hrn : readN d.length (d ++ rest) = some (d, rest) :=
        readN_append _ _ _ rfl
      simp [decodeBody, wideCode, List.append_assoc,
        readBE_append 4 d.length (d ++ rest) hlt, hrn]
    case isFalse h => simp at henc
  · intro bs henc
    simp [fuelNeed]
  · intro bs henc
    simp [fuelNeed]

theorem codecOK_vsymbol (d : List Nat) : CodecOK (.vsymbol d) := by
  refine ⟨?_, ?_, ?_, ?_⟩
  · intro f bs rest hf henc
    simp only [encodeV] at henc
    split at henc
    case isTrue hall =>
      split at henc
      case isTrue h8 =>
        simp at henc
        subst henc
        have hrn : readN d.length (d ++ rest) = some (d, rest) :=
          readN_append _ _ _ rfl
        simp [decodeV, decodeBody, readBE_one, hrn]
      case isFalse h8 =>
        split at henc
        case isTrue h32 =>
          simp at henc
          subst henc
          have hlt : d.length < 256 ^ 4 := by norm_num at h32 ⊢; omega
          have hrn : readN d.length (d ++ rest) = some (d, rest) :=
            readN_append _ _ _ rfl
          simp [decodeV, decodeBody, List.append_assoc,
            readBE_append 4 d.length (d ++ rest) hlt, hrn]
        case isFalse h => simp at henc
    case isFalse h => simp at henc
  · intro f bs rest hf henc
    simp only [encodeWideBody] at henc
    split at henc
    case isTrue h =>
      simp at henc
      subst henc
      have hlt : d.length < 256 ^ 4 := by norm_num at h ⊢; omega
      have hrn : readN d.length (d ++ rest) = some (d, rest) :=
        readN_append _ _ _ rfl
      simp [decodeBody, wideCode, List.append_assoc,
        readBE_append 4 d.length (d ++ rest) hlt, hrn]
    case isFalse h => simp at henc
  · intro bs henc
    simp [fuelNeed]
  · intro bs henc
    simp [fuelNeed]

theorem decodeMany_payload (xs : List Value) (f : Nat)
    (H : ∀ x ∈ xs, EncDecV x) :
    ∀ payload rest, fuelNeedL xs ≤ f → encodeListPayload xs = some payload →
      decodeMany f xs.length (payload ++ rest) = some (xs, rest) := by
  induction xs with
  | nil =>
      intro payload rest hf henc
      simp [encodeListPayload] at henc
      subst henc
      simp [decodeMany]
  | cons x xs ih =>
      intro payload rest hf henc
      simp only [encodeListPayload] at henc
      cases hx : encodeV x with
      | none => rw [hx] at henc; simp at henc
      | some b =>
          rw [hx] at henc
          cases hxs : encodeListPayload xs with
          | none => rw [hxs] at henc; simp at henc
          | some bsx =>
              rw [hxs] at henc
              simp at henc
              subst henc
              rw [fuelNeedL, Nat.max_le] at hf
              have hdx := H x (by simp) f b (bsx ++ rest) hf.1 hx
              have hrec := ih (fun y hy => H y (by simp [hy])) bsx rest hf.2 hxs
              rw [List.length_cons, List.append_assoc]
              simp only [decodeMany]
              rw [hdx]
              simp only [Option.bind_eq_bind, Option.some_bind]
              rw [hrec]
              simp

theorem decodePairs_payload (ps : List (Value × Value)) (f : Nat)
    (H : ∀ p ∈ ps, EncDecV p.1 ∧ EncDecV p.2) :
    ∀ payload rest, fuelNeedP ps ≤ f → encodePairsPayload ps = some payload →
      decodePairs f ps.length (payload ++ rest) = some (ps, rest) := by
  induction ps with
  | nil =>
      intro payload rest hf henc
      simp [encodePairsPayload] at henc
      subst henc
      simp [decodePairs]
  | cons p ps ih =>
      intro payload rest hf henc
      obtain ⟨k, v⟩ := p
      simp only [encodePairsPayload] at henc
      cases hk : encodeV k with
      | none => rw [hk] at henc; simp at henc
      | some kb =>
          rw [hk] at henc
          cases hv : encodeV v with
          | none => rw [hv] at henc; simp at henc
          | some vb =>
              rw [hv] at henc
              cases hps : encodePairsPayload ps with
              | none => rw [hps] at henc; simp at henc
              | some bsx =>
                  rw [hps] at henc
                  simp at henc
                  subst henc
                  rw [fuelNeedP, Nat.max_le] at hf
                  obtain ⟨hfk, hf2⟩ := hf
                  rw [Nat.max_le] at hf2
                  have hdk := (H (k, v) (by simp)).1 f kb (vb ++ (bsx ++ rest)) hfk hk
                  have hdv := (H (k, v) (by simp)).2 f vb (bsx ++ rest) hf2.1 hv
                  have hrec := ih (fun q hq => H q (by simp [hq])) bsx rest hf2.2 hps
                  rw [List.length_cons, List.append_assoc, List.append_assoc]
                  simp only [decodePairs]
                  rw [hdk]
                  simp only [Option.bind_eq_bind, Option.some_bind]
                  rw [hdv]
                  simp only [Option.some_bind]
                  rw [hrec]
                  simp

theorem decodeBodies_payload (kc : Nat) (xs : List Value) (f : Nat)
    (H : ∀ x ∈ xs, EncDecB x) :
    ∀ payload rest, fuelNeedL xs ≤ f → encodeArrayBodies kc xs = some payload →
      decodeBodies f kc xs.length (payload ++ rest) = some (xs, rest) := by
  induction xs with
  | nil =>
      intro payload rest hf henc
      simp [encodeArrayBodies] at henc
      subst henc
      simp [decodeBodies]
  | cons x xs ih =>
      intro payload rest hf henc
      simp only [encodeArrayBodies] at henc
      split at henc
      case isFalse h => simp at henc
      case isTrue hwc =>
        cases hx : encodeWideBody x with
        | none => rw [hx] at henc; simp at henc
        | some b =>
            rw [hx] at henc
            cases hxs : encodeArrayBodies kc xs with
            | none => rw [hxs] at henc; simp at henc
            | some bsx =>
                rw [hxs] at henc
                simp at henc
                subst henc
                rw [fuelNeedL, Nat.max_le] at hf
                have hdx := H x (by simp) f b (bsx ++ rest) hf.1 hx
                rw [hwc] at hdx
                have hrec := ih (fun y hy => H y (by simp [hy])) bsx rest hf.2 hxs
                rw [List.length_cons, List.append_assoc]
                simp only [decodeBodies]
                rw [hdx]
                simp only [Option.bind_eq_bind, Option.some_bind]
                rw [hrec]
                simp

theorem fuelNeedL_le_payload (xs : List Value)
    (H : ∀ x ∈ xs, FuelLeV x) :
    ∀ payload, encodeListPayload xs = some payload →
      fuelNeedL xs ≤ payload.length := by
  induction xs with
  | nil => intro payload henc; simp [fuelNeedL]
  | cons x xs ih =>
      intro payload henc
      simp only [encodeListPayload] at henc
      cases hx : encodeV x with
      | none => rw [hx] at henc; simp at henc
      | some b =>
          rw [hx] at henc
          cases hxs : encodeListPayload xs with
          | none => rw [hxs] at henc; simp at henc
          | some bsx =>
              rw [hxs] at henc
              simp at henc
              subst henc
              have h1 := H x (by simp) b hx
              have h2 := ih (fun y hy => H y (by simp [hy])) bsx hxs
              rw [fuelNeedL, Nat.max_le]
              simp only [List.length_append]
              omega

theorem fuelNeedP_le_payload (ps : List (Value × Value))
    (H : ∀ p ∈ ps, FuelLeV p.1 ∧ FuelLeV p.2) :
    ∀ payload, encodePairsPayload ps = some payload →
      fuelNeedP ps ≤ payload.length := by
  induction ps with
  | nil => intro payload henc; simp [fuelNeedP]
  | cons p ps ih =>
      intro payload henc
      obtain ⟨k, v⟩ := p
      simp only [encodePairsPayload] at henc
      cases hk : encodeV k with
      | none => rw [hk] at henc; simp at henc
      | some kb =>
          rw [hk] at henc
          cases hv : encodeV v with
          | none => rw [hv] at henc; simp at henc
          | some vb =>
              rw [hv] at henc
              cases hps : encodePairsPayload ps with
              | none => rw [hps] at henc; simp at henc
              | some bsx =>
                  rw [hps] at henc
                  simp at henc
                  subst henc
                  have h1 := (H (k, v) (by simp)).1 kb hk
                  have h2 := (H (k, v) (by simp)).2 vb hv
                  simp only at h1 h2
                  have h3 := ih (fun q hq => H q (by simp [hq])) bsx hps
                  rw [fuelNeedP, Nat.max_le]
                  constructor
                  · simp only [List.length_append]; omega
                  · rw [Nat.max_le]
                    constructor <;> simp only [List.length_append] <;> omega

theorem fuelNeedL_le_bodies (kc : Nat) (xs : List Value)
    (H : ∀ x ∈ xs, FuelLeB x) :
    ∀ payload, encodeArrayBodies kc xs = some payload →
      fuelNeedL xs ≤ payload.length + 1 := by
  induction xs with
  | nil => intro payload henc; simp [fuelNeedL]
  | cons x xs ih =>
      intro payload henc
      simp only [encodeArrayBodies] at henc
      split at henc
      case isFalse h => simp at henc
      case isTrue hwc =>
        cases hx : encodeWideBody x with
        | none => rw [hx] at henc; simp at henc
        | some b =>
            rw [hx] at henc
            cases hxs : encodeArrayBodies kc xs with
            | none => rw [hxs] at henc; simp at henc
            | some bsx =>
                rw [hxs] at henc
                simp at henc
                subst henc
                have h1 := H x (by simp) b hx
                have h2 := ih (fun y hy => H y (by simp [hy])) bsx hxs
                rw [fuelNeedL, Nat.max_le]
                constructor <;> simp only [List.length_append] <;> omega

theorem codecOK_vlist (xs : List Value) (H : ∀ x ∈ xs, CodecOK x) :
    CodecOK (.vlist xs) := by
  refine ⟨?_, ?_, ?_, ?_⟩
  · intro f bs rest hf henc
    simp only [fuelNeed] at hf
    simp only [encodeV] at henc
    cases hp : encodeListPayload xs with
    | none => rw [hp] at henc; simp at henc
    | some payload =>
        rw [hp] at henc
        simp only [Option.bind_eq_bind, Option.some_bind] at henc
        split at henc
        case isTrue h0 =>
          have hxs : xs = [] := List.length_eq_zero.mp h0
          subst hxs
          simp at henc
          subst henc
          simp [decodeV, decodeBody]
        case isFalse h0 =>
          split at henc
          case isTrue h8 =>
            simp at henc
            subst henc
            obtain ⟨f, rfl⟩ : ∃ g, f = g + 1 := ⟨f - 1, by omega⟩
            have hmany := decodeMany_payload xs f (fun x hx => (H x hx).1)
              payload rest (by omega) hp
            simp only [List.cons_append, decodeV, decodeBody, readBE_one,
              Option.bind_eq_bind, Option.some_bind]
            rw [if_neg (by simp only [List.length_append]; omega)]
            rw [hmany]
            simp
          case isFalse h8 =>
            split at henc
            case isTrue h32 =>
              simp at henc
              subst henc
              obtain ⟨f, rfl⟩ : ∃ g, f = g + 1 := ⟨f - 1, by omega⟩
              have hmany := decodeMany_payload xs f (fun x hx => (H x hx).1)
                payload rest (by omega) hp
              have hs : 4 + payload.length < 256 ^ 4 := by
                norm_num at h32 ⊢
                omega
              have hc : xs.length < 256 ^ 4 := by
                norm_num at h32 ⊢
                omega
              simp only [List.cons_append, List.append_assoc, decodeV, decodeBody,
                readBE_append 4 (4 + payload.length) _ hs,
                readBE_append 4 xs.length _ hc,
                Option.bind_eq_bind, Option.some_bind]
              rw [if_neg (by simp only [List.length_append]; omega)]
              rw [hmany]
              simp
            case isFalse h => simp at henc
  · intro f bs rest hf henc
    simp only [fuelNeed] at hf
    simp only [encodeWideBody] at henc
    cases hp : encodeListPayload xs with
    | none => rw [hp] at henc; simp at henc
    | some payload =>
        rw [hp] at henc
        simp only [Option.bind_eq_bind, Option.some_bind] at henc
        split at henc
        case isTrue h32 =>
          simp at henc
          subst henc
          obtain ⟨f, rfl⟩ : ∃ g, f = g + 1 := ⟨f - 1, by omega⟩
          have hmany := decodeMany_payload xs f (fun x hx => (H x hx).1)
            payload rest (by omega) hp
          have hs : 4 + payload.length < 256 ^ 4 := by
            norm_num at h32 ⊢
            omega
          have hc : xs.length < 256 ^ 4 := by
            norm_num at h32 ⊢
            omega
          simp only [wideCode, List.append_assoc, decodeBody,
            readBE_append 4 (4 + payload.length) _ hs,
            readBE_append 4 xs.length _ hc,
            Option.bind_eq_bind, Option.some_bind]
          rw [if_neg (by simp only [List.length_append]; omega)]
          rw [hmany]
          simp
        case isFalse h => simp at henc
  · intro bs henc
    simp only [fuelNeed]
    simp only [encodeV] at henc
    cases hp : encodeListPayload xs with
    | none => rw [hp] at henc; simp at henc
    | some payload =>
        rw [hp] at henc
        simp only [Option.bind_eq_bind, Option.some_bind] at henc
        have hple := fuelNeedL_le_payload xs (fun x hx => (H x hx).2.2.1) payload hp
        split at henc
        case isTrue h0 =>
          have hxs : xs = [] := List.length_eq_zero.mp h0
          subst hxs
          simp at henc
          subst henc
          simp [fuelNeedL]
        case isFalse h0 =>
          split at henc
          case isTrue h8 =>
            simp at henc
            subst henc
            simp only [List.length_append, List.length_cons]
            omega
          case isFalse h8 =>
            split at henc
            case isTrue h32 =>
              simp at henc
              subst henc
              simp only [List.length_append, List.length_cons, beBytes_length]
              omega
            case isFalse h => simp at henc
  · intro bs henc
    simp only [fuelNeed]
    simp only [encodeWideBody] at henc
    cases hp : encodeListPayload xs with
    | none => rw [hp] at henc; simp at henc
    | some payload =>
        rw [hp] at henc
        simp only [Option.bind_eq_bind, Option.some_bind] at henc
        have hple := fuelNeedL_le_payload xs (fun x hx => (H x hx).2.2.1) payload hp
        split at henc
        case isTrue h32 =>
          simp at henc
          subst henc
          simp only [List.length_append, beBytes_length]
          omega
        case isFalse h => simp at henc

theorem codecOK_vmap (ps : List (Value × Value))
    (H : ∀ p ∈ ps, CodecOK p.1 ∧ CodecOK p.2) : CodecOK (.vmap ps) := by
  have hhalf : 2 * ps.length / 2 = ps.length := by omega
  refine ⟨?_, ?_, ?_, ?_⟩
  · intro f bs rest hf henc
    simp only [fuelNeed] at hf
    simp only [encodeV] at henc
    cases hp : encodePairsPayload ps with
    | none => rw [hp] at henc; simp at henc
    | some payload =>
        rw [hp] at henc
        simp only [Option.bind_eq_bind, Option.some_bind] at henc
        split at henc
        case isTrue h8 =>
          simp at henc
          subst henc
          obtain ⟨f, rfl⟩ : ∃ g, f = g + 1 := ⟨f - 1, by omega⟩
          have hmany := decodePairs_payload ps f
            (fun p hp2 => ⟨((H p hp2).1).1, ((H p hp2).2).1⟩)
            payload rest (by omega) hp
          simp only [List.cons_append, decodeV, decodeBody, readBE_one,
            Option.bind_eq_bind, Option.some_bind]
          rw [if_neg (by simp only [List.length_append]; omega)]
          rw [if_neg (by omega)]
          rw [hhalf, hmany]
          simp
        case isFalse h8 =>
          split at henc
          case isTrue h32 =>
            simp at henc
            subst henc
            obtain ⟨f, rfl⟩ : ∃ g, f = g + 1 := ⟨f - 1, by omega⟩
            have hmany := decodePairs_payload ps f
              (fun p hp2 => ⟨((H p hp2).1).1, ((H p hp2).2).1⟩)
              payload rest (by omega) hp
            have hs : 4 + payload.length < 256 ^ 4 := by
              norm_num at h32 ⊢
              omega
            have hc : 2 * ps.length < 256 ^ 4 := by
              norm_num at h32 ⊢
              omega
            simp only [List.cons_append, List.append_assoc, decodeV, decodeBody,
              readBE_append 4 (4 + payload.length) _ hs,
              readBE_append 4 (2 * ps.length) _ hc,
              Option.bind_eq_bind, Option.some_bind]
            rw [if_neg (by simp only [List.length_append]; omega)]
            rw [if_neg (by omega)]
            rw [hhalf, hmany]
            simp
          case isFalse h => simp at henc
  · intro f bs rest hf henc
    simp only [fuelNeed] at hf
    simp only [encodeWideBody] at henc
    cases hp : encodePairsPayload ps with
    | none => rw [hp] at henc; simp at henc
    | some payload =>
        rw [hp] at henc
        simp only [Option.bind_eq_bind, Option.some_bind] at henc
        split at henc
        case isTrue h32 =>
          simp at henc
          subst henc
          obtain ⟨f, rfl⟩ : ∃ g, f = g + 1 := ⟨f - 1, by omega⟩
          have hmany := decodePairs_payload ps f
            (fun p hp2 => ⟨((H p hp2).1).1, ((H p hp2).2).1⟩)
            payload rest (by omega) hp
          have hs : 4 + payload.length < 256 ^ 4 := by
            norm_num at h32 ⊢
            omega
          have hc : 2 * ps.length < 256 ^ 4 := by
            norm_num at h32 ⊢
            omega
          simp only [wideCode, List.append_assoc, decodeBody,
            readBE_append 4 (4 + payload.length) _ hs,
            readBE_append 4 (2 * ps.length) _ hc,
            Option.bind_eq_bind, Option.some_bind]
          rw [if_neg (by simp only [List.length_append]; omega)]
          rw [if_neg (by omega)]
          rw [hhalf, hmany]
          simp
        case isFalse h => simp at henc
  · intro bs henc
    simp only [fuelNeed]
    simp only [encodeV] at henc
    cases hp : encodePairsPayload ps with
    | none => rw [hp] at henc; simp at henc
    | some payload =>
        rw [hp] at henc
        simp only [Option.bind_eq_bind, Option.some_bind] at henc
        have hple := fuelNeedP_le_payload ps
          (fun p hp2 => ⟨((H p hp2).1).2.2.1, ((H p hp2).2).2.2.1⟩) payload hp
        split at henc
        case isTrue h8 =>
          simp at henc
          subst henc
          simp only [List.length_append, List.length_cons]
          omega
        case isFalse h8 =>
          split at henc
          case isTrue h32 =>
            simp at henc
            subst henc
            simp only [List.length_append, List.length_cons, beBytes_length]
            omega
          case isFalse h => simp at henc
  · intro bs henc
    simp only [fuelNeed]
    simp only [encodeWideBody] at henc
    cases hp : encodePairsPayload ps with
    | none => rw [hp] at henc; simp at henc
    | some payload =>
        rw [hp] at henc
        simp only [Option.bind_eq_bind, Option.some_bind] at henc
        have hple := fuelNeedP_le_payload ps
          (fun p hp2 => ⟨((H p hp2).1).2.2.1, ((H p hp2).2).2.2.1⟩) payload hp
        split at henc
        case isTrue h32 =>
          simp at henc
          subst henc
          simp only [List.length_append, beBytes_length]
          omega
        case isFalse h => simp at henc

theorem codecOK_varray (xs : List Value) (H : ∀ x ∈ xs, CodecOK x) :
    CodecOK (.varray xs) := by
  refine ⟨?_, ?_, ?_, ?_⟩
  · intro f bs rest hf henc
    simp only [fuelNeed] at hf
    simp only [encodeV] at henc
    cases hp : encodeArrayBodies (arrayElemCodeOf xs) xs with
    | none => rw [hp] at henc; simp at henc
    | some bodies =>
        rw [hp] at henc
        simp only [Option.bind_eq_bind, Option.some_bind] at henc
        split at henc
        case isTrue h8 =>
          simp at henc
          subst henc
          obtain ⟨f, rfl⟩ : ∃ g, f = g + 1 := ⟨f - 1, by omega⟩
          have hmany := decodeBodies_payload (arrayElemCodeOf xs) xs f
            (fun x hx => (H x hx).2.1) bodies rest (by omega) hp
          simp only [List.cons_append, decodeV, decodeBody, readBE_one,
            Option.bind_eq_bind, Option.some_bind]
          rw [if_neg (by simp only [List.length_append]; omega)]
          rw [hmany]
          simp
        case isFalse h8 =>
          split at henc
          case isTrue h32 =>
            simp at henc
            subst henc
            obtain ⟨f, rfl⟩ : ∃ g, f = g + 1 := ⟨f - 1, by omega⟩
            have hmany := decodeBodies_payload (arrayElemCodeOf xs) xs f
              (fun x hx => (H x hx).2.1) bodies rest (by omega) hp
            have hs : 5 + bodies.length < 256 ^ 4 := by
              norm_num at h32 ⊢
              omega
            have hc : xs.length < 256 ^ 4 := by
              norm_num at h32 ⊢
              omega
            simp only [List.cons_append, List.append_assoc, decodeV, decodeBody,
              readBE_append 4 (5 + bodies.length) _ hs,
              readBE_append 4 xs.length _ hc, readBE_one,
              Option.bind_eq_bind, Option.some_bind]
            rw [if_neg (by simp only [List.length_append]; omega)]
            rw [hmany]
            simp
          case isFalse h => simp at henc
  · intro f bs rest hf henc
    simp only [fuelNeed] at hf
    simp only [encodeWideBody] at henc
    cases hp : encodeArrayBodies (arrayElemCodeOf xs) xs with
    | none => rw [hp] at henc; simp at henc
    | some bodies =>
        rw [hp] at henc
        simp only [Option.bind_eq_bind, Option.some_bind] at henc
        split at henc
        case isTrue h32 =>
          simp at henc
          subst henc
          obtain ⟨f, rfl⟩ : ∃ g, f = g + 1 := ⟨f - 1, by omega⟩
          have hmany := decodeBodies_payload (arrayElemCodeOf xs) xs f
            (fun x hx => (H x hx).2.1) bodies rest (by omega) hp
          have hs : 5 + bodies.length < 256 ^ 4 := by
            norm_num at h32 ⊢
            omega
          have hc : xs.length < 256 ^ 4 := by
            norm_num at h32 ⊢
            omega
          simp only [wideCode, List.append_assoc, decodeBody, List.cons_append,
            readBE_append 4 (5 + bodies.length) _ hs,
            readBE_append 4 xs.length _ hc, readBE_one,
            Option.bind_eq_bind, Option.some_bind]
          rw [if_neg (by simp only [List.length_append]; omega)]
          rw [hmany]
          simp
        case isFalse h => simp at henc
  · intro bs henc
    simp only [fuelNeed]
    simp only [encodeV] at henc
    cases hp : encodeArrayBodies (arrayElemCodeOf xs) xs with
    | none => rw [hp] at henc; simp at henc
    | some bodies =>
        rw [hp] at henc
        simp only [Option.bind_eq_bind, Option.some_bind] at henc
        have hple := fuelNeedL_le_bodies (arrayElemCodeOf xs) xs
          (fun x hx => (H x hx).2.2.2) bodies hp
        split at henc
        case isTrue h8 =>
          simp at henc
          subst henc
          simp only [List.length_append, List.length_cons]
          omega
        case isFalse h8 =>
          split at henc
          case isTrue h32 =>
            simp at henc
            subst henc
            simp only [List.length_append, List.length_cons, beBytes_length]
            omega
          case isFalse h => simp at henc
  · intro bs henc
    simp only [fuelNeed]
    simp only [encodeWideBody] at henc
    cases hp : encodeArrayBodies (arrayElemCodeOf xs) xs with
    | none => rw [hp] at henc; simp at henc
    | some bodies =>
        rw [hp] at henc
        simp only [Option.bind_eq_bind, Option.some_bind] at henc
        have hple := fuelNeedL_le_bodies (arrayElemCodeOf xs) xs
          (fun x hx => (H x hx).2.2.2) bodies hp
        split at henc
        case isTrue h32 =>
          simp at henc
          subst henc
          simp only [List.length_append, List.length_cons, beBytes_length]
          omega
        case isFalse h => simp at henc

/-- The Value a decoded descriptor arrives as: a ulong for a code, a symbol
for a name. -/
def descToValue : Descriptor → Value
  | .code n => .vulong n
  | .name s => .vsymbol s

theorem decodeV_descriptor (d : Descriptor) (f : Nat) (ds rest : List Nat)
    (henc : encodeDescriptor d = some ds) :
    decodeV f (ds ++ rest) = some (descToValue d, rest) := by
  cases d with
  | code n =>
      simp only [encodeDescriptor, encodeULong] at henc
      split at henc
      case isTrue h =>
        simp at henc
        subst henc h
        simp [decodeV, decodeBody, descToValue]
      case isFalse h0 =>
        split at henc
        case isTrue h =>
          simp at henc
          subst henc
          simp [decodeV, decodeBody, descToValue]
        case isFalse h1 =>
          split at henc
          case isTrue h =>
            simp at henc
            subst henc
            have hlt : n < 256 ^ 8 := by norm_num at h ⊢; omega
            simp [decodeV, decodeBody, descToValue, List.append_assoc,
              readBE_append 8 n rest hlt]
          case isFalse h => simp at henc
  | name s =>
      simp only [encodeDescriptor, encodeSymbol] at henc
      split at henc
      case isTrue hall =>
        split at henc
        case isTrue h8 =>
          simp at henc
          subst henc
          have hrn : readN s.length (s ++ rest) = some (s, rest) :=
            readN_append _ _ _ rfl
          simp [decodeV, decodeBody, descToValue, readBE_one, hrn]
        case isFalse h8 =>
          split at henc
          case isTrue h32 =>
            simp at henc
            subst henc
            have hlt : s.length < 256 ^ 4 := by norm_num at h32 ⊢; omega
            have hrn : readN s.length (s ++ rest) = some (s, rest) :=
              readN_append _ _ _ rfl
            simp [decodeV, decodeBody, descToValue, List.append_assoc,
              readBE_append 4 s.length (s ++ rest) hlt, hrn]
          case isFalse h => simp at henc
      case isFalse h => simp at henc

theorem codecOK_vdescribed (d : Descriptor) (v : Value) (Hv : CodecOK v) :
    CodecOK (.vdescribed d v) := by
  refine ⟨?_, ?_, ?_, ?_⟩
  · intro f bs rest hf henc
    simp only [fuelNeed] at hf
    simp only [encodeV] at henc
    cases hd : encodeDescriptor d with
    | none => rw [hd] at henc; simp at henc
    | some ds =>
        rw [hd] at henc
        cases hv : encodeV v with
        | none => rw [hv] at henc; simp at henc
        | some vs =>
            rw [hv] at henc
            simp at henc
            subst henc
            obtain ⟨f, rfl⟩ : ∃ g, f = g + 1 := ⟨f - 1, by omega⟩
            have hdd := decodeV_descriptor d f ds (vs ++ rest) hd
            have hdv := Hv.1 f vs rest (by omega) hv
            simp only [List.cons_append, List.append_assoc, decodeV, decodeBody,
              Option.bind_eq_bind]
            rw [hdd]
            simp only [Option.some_bind]
            cases d <;>
              simp only [descToValue, Option.some_bind] <;>
              rw [hdv] <;> simp
  · intro f bs rest hf henc
    simp only [fuelNeed] at hf
    simp only [encodeWideBody] at henc
    cases hd : encodeDescriptor d with
    | none => rw [hd] at henc; simp at henc
    | some ds =>
        rw [hd] at henc
        cases hv : encodeV v with
        | none => rw [hv] at henc; simp at henc
        | some vs =>
            rw [hv] at henc
            simp at henc
            subst henc
            obtain ⟨f, rfl⟩ : ∃ g, f = g + 1 := ⟨f - 1, by omega⟩
            have hdd := decodeV_descriptor d f ds (vs ++ rest) hd
            have hdv := Hv.1 f vs rest (by omega) hv
            simp only [wideCode, List.append_assoc, decodeBody,
              Option.bind_eq_bind]
            rw [hdd]
            simp only [Option.some_bind]
            cases d <;>
              simp only [descToValue, Option.some_bind] <;>
              rw [hdv] <;> simp
  · intro bs henc
    simp only [fuelNeed]
    simp only [encodeV] at henc
    cases hd : encodeDescriptor d with
    | none => rw [hd] at henc; simp at henc
    | some ds =>
        rw [hd] at henc
        cases hv : encodeV v with
        | none => rw [hv] at henc; simp at henc
        | some vs =>
            rw [hv] at henc
            simp at henc
            subst henc
            have h1 := Hv.2.2.1 vs hv
            simp only [List.length_append, List.length_cons]
            omega
  · intro bs henc
    simp only [fuelNeed]
    simp only [encodeWideBody] at henc
    cases hd : encodeDescriptor d with
    | none => rw [hd] at henc; simp at henc
    | some ds =>
        rw [hd] at henc
        cases hv : encodeV v with
        | none => rw [hv] at henc; simp at henc
        | some vs =>
            rw [hv] at henc
            simp at henc
            subst henc
            have h1 := Hv.2.2.1 vs hv
            simp only [List.length_append]
            omega

theorem codecOK_all : ∀ (n : Nat) (v : Value), sizeOf v ≤ n → CodecOK v := by
  intro n
  induction n with
  | zero =>
      intro v hv
      exact absurd hv (by have := value_sizeOf_pos v; omega)
  | succ n ih =>
      intro v hv
      cases v with
      | vnull => exact codecOK_vnull
      | vbool b => exact codecOK_vbool b
      | vubyte a => exact codecOK_vubyte a
      | vushort a => exact codecOK_vushort a
      | vuint a => exact codecOK_vuint a
      | vulong a => exact codecOK_vulong a
      | vbyte a => exact codecOK_vbyte a
      | vshort a => exact codecOK_vshort a
      | vint a => exact codecOK_vint a
      | vlong a => exact codecOK_vlong a
      | vfloat a => exact codecOK_vfloat a
      | vdouble a => exact codecOK_vdouble a
      | vdec32 a => exact codecOK_vdec32 a
      | vdec64 a => exact codecOK_vdec64 a
      | vdec128 a => exact codecOK_vdec128 a
      | vchar a => exact codecOK_vchar a
      | vtimestamp a => exact codecOK_vtimestamp a
      | vuuid a => exact codecOK_vuuid a
      | vbinary a => exact codecOK_vbinary a
      | vstring a => exact codecOK_vstring a
      | vsymbol a => exact codecOK_vsymbol a
      | vlist xs =>
          refine codecOK_vlist xs (fun x hx => ih x ?_)
          have h1 := List.sizeOf_lt_of_mem hx
          have h2 : sizeOf (Value.vlist xs) = 1 + sizeOf xs := by simp
          omega
      | vmap ps =>
          refine codecOK_vmap ps (fun p hp => ?_)
          obtain ⟨k, w⟩ := p
          have h1 := List.sizeOf_lt_of_mem hp
          have h2 : sizeOf (Value.vmap ps) = 1 + sizeOf ps := by simp
          have h3 : sizeOf (k, w) = 1 + sizeOf k + sizeOf w := by simp
          exact ⟨ih k (by omega), ih w (by omega)⟩
      | varray xs =>
          refine codecOK_varray xs (fun x hx => ih x ?_)
          have h1 := List.sizeOf_lt_of_mem hx
          have h2 : sizeOf (Value.varray xs) = 1 + sizeOf xs := by simp
          omega
      | vdescribed d w =>
          refine codecOK_vdescribed d w (ih w ?_)
          have h2 : sizeOf (Value.vdescribed d w) = 1 + sizeOf d + sizeOf w := by
            simp
          have h3 := value_sizeOf_pos w
          omega

theorem codecOK_value (v : Value) : CodecOK v :=
  codecOK_all (sizeOf v) v le_rfl

/-- C1: for every representable Value v (one the canonical encoder accepts),
decoding the bytes produced by encoding v yields v back:
decode(encode(v)) = v.  Values differing only in non-canonical encodings
coalesce because the decoder maps every recognized form of a constructor to
the same in-memory Value; in particular a described composite serialized with
the list encoding (a `vdescribed` wrapping a `vlist`) deserializes to an
equal value, as exercised by the witness below. -/
theorem decode_encode_roundtrip (v : Value) (bs : List Nat)
    (henc : encodeV v = some bs) : amqpDecode bs = some v := by
  have hfuel : fuelNeed v ≤ bs.length := (codecOK_value v).2.2.1 bs henc
  have h := (codecOK_value v).1 bs.length bs [] hfuel henc
  rw [List.append_nil] at h
  simp [amqpDecode, h]

/-- Witness for C1: the described list `Described(code 0x11, [1i32, 2i32])`
of the serde_amqp test round-trips through its concrete byte encoding. -/
theorem decode_encode_roundtrip_witness :
    amqpDecode [0x00, 0x53, 0x11, 0xC0, 0x05, 0x02, 0x54, 0x01, 0x54, 0x02] =
      some (.vdescribed (.code 0x11) (.vlist [.vint 1, .vint 2])) :=
  decode_encode_roundtrip (.vdescribed (.code 0x11) (.vlist [.vint 1, .vint 2]))
    [0x00, 0x53, 0x11, 0xC0, 0x05, 0x02, 0x54, 0x01, 0x54, 0x02] (by rfl)

/-- C4: querying the category of an encoding format code returns the
IsDescribedType error exactly for the described-type prefix, and an Ok
category (fixed or encoded width) for every other recognized format code. -/
theorem category_query_described_prefix :
    ∀ c : EncodingCodes,
      (Category.tryFromEncodingCodes c = .error .isDescribedType ↔
        c = .describedType) ∧
      (Category.tryFromEncodingCodes c = .error .isDescribedType ∨
        ∃ cat, Category.tryFromEncodingCodes c = .ok cat) := by
  intro c
  cases c <;> simp [Category.tryFromEncodingCodes]

/-- C5: for every SliceReader and byte count n, get_byte_slice and
read_exact signal UnexpectedEof and leave the remaining input unchanged when
fewer than n bytes remain, and otherwise return exactly the first n remaining
bytes and advance the reader past them. -/
theorem slice_reader_get_exact :
    ∀ (r : SliceReader) (n : Nat),
      (r.slice.length < n →
        r.getByteSlice n = (.error .unexpectedEof, r) ∧
        r.readExact n = (.error .unexpectedEof, r)) ∧
      (n ≤ r.slice.length →
        r.getByteSlice n = (.ok (r.slice.take n), ⟨r.slice.drop n⟩) ∧
        r.readExact n = (.ok (r.slice.take n), ⟨r.slice.drop n⟩) ∧
        (r.slice.take n).length = n ∧
        r.slice.take n ++ r.slice.drop n = r.slice) := by
  intro r n
  constructor
  · intro h
    constructor <;> simp [SliceReader.getByteSlice, SliceReader.readExact, h]
  · intro h
    have h2 : ¬ r.slice.length < n := by omega
    refine ⟨by simp [SliceReader.getByteSlice, h2], ?_, ?_, ?_⟩
    · simp [SliceReader.readExact, SliceReader.getByteSlice, h2]
    · simp [List.length_take]
      omega
    · exact List.take_append_drop n r.slice

/-- Witness for C5: on the reader over [0, 1, 2], a 10-byte request fails
with UnexpectedEof leaving the input intact, and a 2-byte read_exact returns
the first two bytes and advances past them. -/
theorem slice_reader_get_exact_witness :
    (SliceReader.mk [0, 1, 2]).getByteSlice 10 =
      (.error .unexpectedEof, SliceReader.mk [0, 1, 2]) ∧
    (SliceReader.mk [0, 1, 2]).readExact 2 = (.ok [0, 1], SliceReader.mk [2]) := by
  constructor
  · exact ((slice_reader_get_exact ⟨[0, 1, 2]⟩ 10).1 (by decide)).1
  · have h := ((slice_reader_get_exact ⟨[0, 1, 2]⟩ 2).2 (by decide)).2.1
    simpa using h

/-- C3: deserializing a message maps descriptor code 0x70 to Header, 0x71 to
DeliveryAnnotations, 0x72 to MessageAnnotations, 0x73 to Properties, 0x74 to
ApplicationProperties, 0x75/0x76/0x77 to the body section (choosing the Data,
AmqpSequence, AmqpValue variant respectively), 0x78 to Footer, and rejects
any other descriptor code with an error. -/
theorem message_section_descriptor_codes :
    (messageFieldVisitU64 0x70 = .ok .header) ∧
    (messageFieldVisitU64 0x71 = .ok .deliveryAnnotations) ∧
    (messageFieldVisitU64 0x72 = .ok .messageAnnotations) ∧
    (messageFieldVisitU64 0x73 = .ok .properties) ∧
    (messageFieldVisitU64 0x74 = .ok .applicationProperties) ∧
    (messageFieldVisitU64 0x75 = .ok .bodySection) ∧
    (messageFieldVisitU64 0x76 = .ok .bodySection) ∧
    (messageFieldVisitU64 0x77 = .ok .bodySection) ∧
    (messageFieldVisitU64 0x78 = .ok .footer) ∧
    (bodySectionFieldVisitU64 0x75 = .ok .data) ∧
    (bodySectionFieldVisitU64 0x76 = .ok .sequence) ∧
    (bodySectionFieldVisitU64 0x77 = .ok .value) ∧
    (∀ v : Nat, v < 0x70 ∨ 0x78 < v → messageFieldVisitU64 v = .error ()) ∧
    (∀ v : Nat, v < 0x75 ∨ 0x77 < v → bodySectionFieldVisitU64 v = .error ()) := by
  refine ⟨rfl, rfl, rfl, rfl, rfl, rfl, rfl, rfl, rfl, rfl, rfl, rfl, ?_, ?_⟩
  · intro v hv
    rw [messageFieldVisitU64.eq_def]
    split <;> first | rfl | omega
  · intro v hv
    rw [bodySectionFieldVisitU64.eq_def]
    split <;> first | rfl | omega

/-- Witness for C3: the unknown codes 0x6F and 0x79 are rejected by the
message section dispatch, and 0x74 by the body-section dispatch. -/
theorem message_section_descriptor_codes_witness :
    messageFieldVisitU64 0x79 = .error () ∧
    bodySectionFieldVisitU64 0x74 = .error () := by
  constructor
  · exact message_section_descriptor_codes.2.2.2.2.2.2.2.2.2.2.2.2.1 0x79 (by omega)
  · exact message_section_descriptor_codes.2.2.2.2.2.2.2.2.2.2.2.2.2 0x74 (by omega)

/-- C2: when the remote desired sender (or receiver) settle mode is in the
acceptor's supported set, the responding Attach echoes it unchanged; when it
is not, the acceptor uses the policy-configured fallback mode (this build
always falls back rather than rejecting, satisfying the fallback-or-reject
disjunction of the claim). -/
theorem acceptor_settle_mode_negotiation :
    ∀ (sh : SharedLinkAcceptorFields) (sm : SenderSettleMode)
      (rm : ReceiverSettleMode),
      (sh.supported_snd_settle_modes.supports sm = true →
        selectSndSettleMode sh sm = sm) ∧
      (sh.supported_snd_settle_modes.supports sm = false →
        selectSndSettleMode sh sm = sh.fallback_snd_settle_mode) ∧
      (sh.supported_rcv_settle_modes.supports rm = true →
        selectRcvSettleMode sh rm = rm) ∧
      (sh.supported_rcv_settle_modes.supports rm = false →
        selectRcvSettleMode sh rm = sh.fallback_rcv_settle_mode) := by
  intro sh sm rm
  refine ⟨?_, ?_, ?_, ?_⟩ <;> intro h <;>
    simp [selectSndSettleMode, selectRcvSettleMode, h]

/-- Witness for C2: with supported sender modes limited to settled and the
fallback set to mixed, a desired settled mode is echoed and a desired
unsettled mode falls back to mixed; symmetrically for the receiver side. -/
theorem acceptor_settle_mode_negotiation_witness :
    selectSndSettleMode
      ⟨[.settled], .mixed, [.first], .second⟩ .settled = .settled ∧
    selectSndSettleMode
      ⟨[.settled], .mixed, [.first], .second⟩ .unsettled = .mixed ∧
    selectRcvSettleMode
      ⟨[.settled], .mixed, [.first], .second⟩ .first = .first ∧
    selectRcvSettleMode
      ⟨[.settled], .mixed, [.first], .second⟩ .second = .second := by
  refine ⟨?_, ?_, ?_, ?_⟩
  · exact (acceptor_settle_mode_negotiation
      ⟨[.settled], .mixed, [.first], .second⟩ .settled .first).1 (by decide)
  · exact (acceptor_settle_mode_negotiation
      ⟨[.settled], .mixed, [.first], .second⟩ .unsettled .first).2.1 (by decide)
  · exact (acceptor_settle_mode_negotiation
      ⟨[.settled], .mixed, [.first], .second⟩ .settled .first).2.2.1 (by decide)
  · exact (acceptor_settle_mode_negotiation
      ⟨[.settled], .mixed, [.first], .second⟩ .settled .second).2.2.2 (by decide)

/-- C6: a link-attach failure caused by a duplicated link name converts, on
both the receiver and the sender attach path, to a protocol error whose
condition is the session error HandleInUse. -/
theorem duplicated_link_name_handle_in_use :
    (ReceiverAttachErrorKind.tryIntoError .duplicatedLinkName).map
      DefError.condition = .ok (.sessionError .handleInUse) ∧
    (SenderAttachErrorKind.tryIntoError .duplicatedLinkName).map
      DefError.condition = .ok (.sessionError .handleInUse) :=
  ⟨rfl, rfl⟩

/-- C7: every attach-time violation of the dynamic-terminus rules --
dynamic-node-properties present while the dynamic flag is false (either
role), an address present when dynamic is true on the receiving peer, and a
null initial-delivery-count on a sender -- converts to a protocol error whose
condition is InvalidField. -/
theorem dynamic_terminus_violations_invalid_field :
    (ReceiverAttachErrorKind.tryIntoError
      .dynamicNodePropertiesIsSomeWhenDynamicIsFalse).map DefError.condition =
      .ok (.amqpError .invalidField) ∧
    (ReceiverAttachErrorKind.tryIntoError .addressIsSomeWhenDynamicIsTrue).map
      DefError.condition = .ok (.amqpError .invalidField) ∧
    (ReceiverAttachErrorKind.tryIntoError .initialDeliveryCountIsNone).map
      DefError.condition = .ok (.amqpError .invalidField) ∧
    (SenderAttachErrorKind.tryIntoError
      .dynamicNodePropertiesIsSomeWhenDynamicIsFalse).map DefError.condition =
      .ok (.amqpError .invalidField) :=
  ⟨rfl, rfl, rfl, rfl⟩

/-- C8: a Declare whose global-id field is set is answered by the transaction
coordinator with a local error whose condition is NotImplemented, and the set
of pending transaction ids is left unchanged (no transaction id is
allocated). -/
theorem on_declare_global_id_not_implemented :
    ∀ (pending : List TransactionId) (d : Declare) (g : TransactionId),
      d.global_id = some g →
      TxnCoordinator.onDeclare pending d =
        some (.error (.local (DefError.new (.amqpError .notImplemented)
          (some "Global transaction ID is not implemented") none)), pending) := by
  intro pending d g hg
  simp [TxnCoordinator.onDeclare, hg]

/-- Witness for C8: a Declare carrying the concrete global id [1] is answered
with the NotImplemented local error and an untouched (empty) pending set. -/
theorem on_declare_global_id_not_implemented_witness :
    TxnCoordinator.onDeclare [] ⟨some [1]⟩ =
      some (.error (.local (DefError.new (.amqpError .notImplemented)
        (some "Global transaction ID is not implemented") none)), []) :=
  on_declare_global_id_not_implemented [] ⟨some [1]⟩ [1] rfl

/-- C10: discharging an OwnedTransaction is idempotent: a successful
discharge leaves is_discharged true, a discharge on an already-discharged
transaction returns Ok with the state unchanged and no controller discharge
issued, and commit and rollback each issue at most one controller
discharge. -/
theorem owned_transaction_discharge_idempotent :
    ∀ (txn : OwnedTransaction) (ctrlOk closeOk fail : Bool),
      (txn.is_discharged = true →
        OwnedTransaction.discharge ctrlOk txn fail = (.ok (), txn, 0)) ∧
      (∀ t n, OwnedTransaction.discharge ctrlOk txn fail = (.ok (), t, n) →
        t.is_discharged = true) ∧
      (OwnedTransaction.commit ctrlOk closeOk txn).2.2 ≤ 1 ∧
      (OwnedTransaction.rollback ctrlOk closeOk txn).2.2 ≤ 1 := by
  intro txn ctrlOk closeOk fail
  obtain ⟨tid, disch⟩ := txn
  cases disch <;> cases ctrlOk <;> cases closeOk <;>
    simp [OwnedTransaction.discharge, OwnedTransaction.commit,
      OwnedTransaction.rollback]

/-- Witness for C10: an already-discharged transaction with id [2] answers a
further discharge (fail = true, controller available) with Ok, itself
unchanged, and zero controller discharges. -/
theorem owned_transaction_discharge_idempotent_witness :
    OwnedTransaction.discharge true ⟨[2], true⟩ true = (.ok (), ⟨[2], true⟩, 0) :=
  (owned_transaction_discharge_idempotent ⟨[2], true⟩ true true true).1 rfl

/-- C9: for every Message, sections() equals 1 plus the number of optional
sections present (hence always between 1 and 7), and last_section_code()
returns 0x78 exactly when the footer is present and 0x77 otherwise,
regardless of which body variant (Data, AmqpSequence or AmqpValue) is
carried. -/
theorem message_sections_count_and_last_code :
    ∀ {H DA MA P AP B F : Type} (m : Message H DA MA P AP B F),
      m.sections = 1 + ([m.header.isSome, m.delivery_annotations.isSome,
        m.message_annotations.isSome, m.properties.isSome,
        m.application_properties.isSome, m.footer.isSome].count true) ∧
      1 ≤ m.sections ∧ m.sections ≤ 7 ∧
      (m.lastSectionCode = 0x78 ↔ m.footer.isSome = true) ∧
      (m.footer.isSome = false → m.lastSectionCode = 0x77) := by
  intro H DA MA P AP B F m
  obtain ⟨h1, h2, h3, h4, h5, b, h7⟩ := m
  cases h1 <;> cases h2 <;> cases h3 <;> cases h4 <;> cases h5 <;> cases h7 <;>
    simp [Message.sections, Message.lastSectionCode, List.count_cons]

/-- Witness for C9: a message whose body is the Data variant and which
carries only a header has two sections and last section code 0x77. -/
theorem message_sections_count_and_last_code_witness :
    (⟨some (), none, none, none, none, BodySectionField.data, none⟩ :
      Message Unit Unit Unit Unit Unit BodySectionField Unit).sections = 2 ∧
    (⟨some (), none, none, none, none, BodySectionField.data, none⟩ :
      Message Unit Unit Unit Unit Unit BodySectionField Unit).lastSectionCode
      = 0x77 := by
  constructor
  · have h := (message_sections_count_and_last_code
      (⟨some (), none, none, none, none, BodySectionField.data, none⟩ :
        Message Unit Unit Unit Unit Unit BodySectionField Unit)).1
    simpa using h
  · exact (message_sections_count_and_last_code
      (⟨some (), none, none, none, none, BodySectionField.data, none⟩ :
        Message Unit Unit Unit Unit Unit BodySectionField Unit)).2.2.2.2 rfl

end Amqp
